import Mathlib

/-!
Verification development for the heterogeneous participating-medium
implementation (`src/medium/heterogeneous.cpp`).

The implementation is shallowly embedded: machine floats are modelled as
exact rationals, `std::exp` and `std::log` are abstract function
parameters of the medium context, the early-exit sentinel value
`+infinity` returned by `integrateDensity` is the top element of
`WithTop ℚ`, and the fatal `Log(EError, ...)` call in `pdfDistance` is
modelled by returning `none`.  External collaborators that are not part
of the translated sources (the nested volume data sources, the phase
function's directional coefficient, the axis-aligned bounding box's
ray-intersection routine, and the sampler) appear as opaque function
fields of the `Medium` context, so every theorem quantifies over all of
their possible behaviours.  Samplers are modelled as the finite list of
uniform variates consumed by a query; a query that would consume more
variates than supplied returns `none` (the real loops terminate with
probability one, so every terminating execution is captured by some
finite list).
-/

namespace HetVol

/-- Three-dimensional point/vector with rational coordinates
(models mitsuba's `Point`/`Vector`). -/
structure Vec3 where
  x : ℚ
  y : ℚ
  z : ℚ
deriving DecidableEq

instance : Add Vec3 := ⟨fun a b => ⟨a.x + b.x, a.y + b.y, a.z + b.z⟩⟩

/-- The zero vector. -/
def Vec3.zero : Vec3 := ⟨0, 0, 0⟩

/-- Scalar multiplication of a vector. -/
def Vec3.smul (q : ℚ) (v : Vec3) : Vec3 := ⟨q * v.x, q * v.y, q * v.z⟩

/-- Dot product (`dot(d, orientation)` in the source). -/
def Vec3.dot (a b : Vec3) : ℚ := a.x * b.x + a.y * b.y + a.z * b.z

/-- `Vector::isZero()`: all components are zero. -/
def Vec3.isZero (v : Vec3) : Bool := decide (v = Vec3.zero)

theorem Vec3.add_x (a b : Vec3) : (a + b).x = a.x + b.x := rfl

theorem Vec3.add_y (a b : Vec3) : (a + b).y = a.y + b.y := rfl

theorem Vec3.add_z (a b : Vec3) : (a + b).z = a.z + b.z := rfl

theorem Vec3.eq_iff (a b : Vec3) : a = b ↔ a.x = b.x ∧ a.y = b.y ∧ a.z = b.z := by
  cases a; cases b; simp [Vec3.mk.injEq]

theorem Vec3.add_right_eq_self (p v : Vec3) : p + v = p ↔ v = Vec3.zero := by
  simp only [Vec3.eq_iff, Vec3.add_x, Vec3.add_y, Vec3.add_z, Vec3.zero]
  constructor
  · rintro ⟨hx, hy, hz⟩
    exact ⟨by linarith, by linarith, by linarith⟩
  · rintro ⟨hx, hy, hz⟩
    exact ⟨by linarith, by linarith, by linarith⟩

theorem Vec3.add_assoc (a b c : Vec3) : a + b + c = a + (b + c) := by
  refine (Vec3.eq_iff _ _).mpr ⟨?_, ?_, ?_⟩ <;>
    simp only [Vec3.add_x, Vec3.add_y, Vec3.add_z] <;> ring

theorem Vec3.smul_ne_zero {q : ℚ} {v : Vec3} (hq : q ≠ 0) (hv : v ≠ Vec3.zero) :
    Vec3.smul q v ≠ Vec3.zero := by
  intro h
  apply hv
  simp only [Vec3.eq_iff, Vec3.smul, Vec3.zero] at h ⊢
  obtain ⟨hx, hy, hz⟩ := h
  exact ⟨by rcases mul_eq_zero.mp hx with h | h; exact absurd h hq; exact h,
    by rcases mul_eq_zero.mp hy with h | h; exact absurd h hq; exact h,
    by rcases mul_eq_zero.mp hz with h | h; exact absurd h hq; exact h⟩

/-- Spectral power distribution with three samples (mitsuba `Spectrum`
with the default `SPECTRUM_SAMPLES = 3`). -/
structure Spectrum where
  c0 : ℚ
  c1 : ℚ
  c2 : ℚ
deriving DecidableEq

/-- `Spectrum(value)`: the constant spectrum. -/
def Spectrum.const (q : ℚ) : Spectrum := ⟨q, q, q⟩

/-- Spectrum scaled by a scalar (`albedo * densityAtT`). -/
def Spectrum.scale (s : Spectrum) (q : ℚ) : Spectrum := ⟨s.c0 * q, s.c1 * q, s.c2 * q⟩

/-- Componentwise difference of spectra. -/
def Spectrum.sub (a b : Spectrum) : Spectrum := ⟨a.c0 - b.c0, a.c1 - b.c1, a.c2 - b.c2⟩

/-- Componentwise quotient of spectra (`albedo / mRec.sigmaS`). -/
def Spectrum.div (a b : Spectrum) : Spectrum := ⟨a.c0 / b.c0, a.c1 / b.c1, a.c2 / b.c2⟩

/-- `Spectrum::max()`: the largest channel value. -/
def Spectrum.maxComponent (s : Spectrum) : ℚ := max s.c0 (max s.c1 s.c2)

/-- Ray segment: origin, direction and the valid parameter
interval `[mint, maxt]`. -/
structure Ray where
  o : Vec3
  d : Vec3
  mint : ℚ
  maxt : ℚ
deriving DecidableEq

/-- `ray(t) = o + t * d`. -/
def Ray.at (r : Ray) (t : ℚ) : Vec3 := r.o + Vec3.smul t r.d

/-- The two integration strategies of `HeterogeneousMedium`. -/
inductive EIntegrationMethod where
  | ESimpsonQuadrature
  | EWoodcockTracking
deriving DecidableEq

/-- The configured heterogeneous-medium context.  Fields that the
translated code reads from external collaborators (volume data
sources, phase function, bounding box, the machine constants of
`std::exp` / `std::log`) are opaque function parameters. -/
structure Medium where
  /-- `m_method`. -/
  method : EIntegrationMethod
  /-- `m_density->lookupFloat`. -/
  density : Vec3 → ℚ
  /-- `m_albedo->lookupSpectrum`. -/
  albedo : Vec3 → Spectrum
  /-- `m_orientation->lookupVector` (meaningful when `hasOrientation`). -/
  orientation : Vec3 → Vec3
  /-- whether `m_orientation != NULL`. -/
  hasOrientation : Bool
  /-- `m_anisotropicMedium`. -/
  anisotropicMedium : Bool
  /-- `m_phaseFunction->sigmaDir`. -/
  sigmaDir : ℚ → ℚ
  /-- `m_stepSize`. -/
  stepSize : ℚ
  /-- `m_densityMultiplier` (inherited from `Medium`). -/
  densityMultiplier : ℚ
  /-- `m_invMaxDensity`. -/
  invMaxDensity : ℚ
  /-- `m_densityAABB.rayIntersect(ray, mint, maxt)`: the parametric
  interval in which the ray traverses the density field's bound, or
  `none` on a miss.  External code; modelled as an oracle. -/
  aabbIntersect : Ray → Option (ℚ × ℚ)
  /-- model of `std::exp`. -/
  exp : ℚ → ℚ
  /-- model of `std::log`. -/
  log : ℚ → ℚ
  /-- the machine constant `-std::log(Epsilon)`. -/
  stopAfterDensity : ℚ

/-- `HeterogeneousMedium::lookupDensity`: base scalar lookup, with the
optional directional multiplier applied when the medium is anisotropic
and the base density is nonzero; a degenerate (zero) local orientation
makes the result exactly zero. -/
def lookupDensity (m : Medium) (p : Vec3) (d : Vec3) : ℚ :=
  let density := m.density p
  if m.anisotropicMedium ∧ density ≠ 0 then
    let orientation := m.orientation p
    if Vec3.isZero orientation = true then 0
    else density * m.sigmaDir (Vec3.dot d orientation)
  else density

/-- Largest absolute endpoint coordinate of the clipped segment
(the `maxComp` loop shared by `integrateDensity` and
`invertDensityIntegral`). -/
def maxCompOf (p pLast : Vec3) : ℚ :=
  max (max (max |p.x| |p.y|) (max |p.z| |pLast.x|)) (max |pLast.y| |pLast.z|)

/-- Shared prologue of `integrateDensity` and `invertDensityIntegral`:
intersect the ray with the density bound, clip `[mint, maxt]` against
the ray's own interval, and reject degenerate path segments
(`length < 1e-6 * maxComp`).  Returns the clipped `(mint, maxt)`. -/
def clippedSegment (m : Medium) (ray : Ray) : Option (ℚ × ℚ) :=
  match m.aabbIntersect ray with
  | none => none
  | some (mint0, maxt0) =>
    let mint := max mint0 ray.mint
    let maxt := min maxt0 ray.maxt
    if maxt - mint < (1 / 1000000) * maxCompOf (ray.at mint) (ray.at maxt) then none
    else some (mint, maxt)

/-- Sub-interval count of the quadrature integrator:
`nSteps = ceil(length / stepSize)` rounded up to the next even
number (`nSteps += nSteps % 2`). -/
def quadNSteps (length stepSize : ℚ) : ℕ :=
  let n := (⌈length / stepSize⌉).toNat
  n + n % 2

/-- The weighted running sum of the quadrature march, without the
early-exit and forward-progress checks: starting from node `p` with
Simpson weight `w` (alternating `4, 2, 4, ...`) and accumulator `acc`,
add `k` weighted middle-node lookups. -/
def marchSum (m : Medium) (d incr : Vec3) : ℕ → Vec3 → ℚ → ℚ → ℚ
  | 0, _, _, acc => acc
  | k + 1, p, w, acc =>
      marchSum m d incr k (p + incr) (6 - w) (acc + w * lookupDensity m p d)

/-- The quadrature march of `integrateDensity` (loop at lines 242-269):
accumulate weighted middle-node lookups; return `none` on the early
exit (`integratedDensity > stopValue`), and stop with the partial sum
if the position fails to advance (round-off stall). -/
def marchLoop (m : Medium) (d incr : Vec3) (stopValue : ℚ) :
    ℕ → Vec3 → ℚ → ℚ → Option ℚ
  | 0, _, _, acc => some acc
  | k + 1, p, w, acc =>
      let acc1 := acc + w * lookupDensity m p d
      if stopValue < acc1 then none
      else if p + incr = p then some acc1
      else marchLoop m d incr stopValue k (p + incr) (6 - w) acc1

/-- The quadrature march of `integrateDensity` on the clipped segment
`[mint, maxt]`: node count, step size, early-exit threshold and the
weighted march, with the final scaling. -/
def marchBody (m : Medium) (ray : Ray) (mint maxt : ℚ) : WithTop ℚ :=
  let length := maxt - mint
  let p := ray.at mint
  let pLast := ray.at maxt
  let nSteps := quadNSteps length m.stepSize
  let stepSize := length / (nSteps : ℚ)
  let increment := Vec3.smul stepSize ray.d
  let stopValue := m.stopAfterDensity * 3 / (stepSize * m.densityMultiplier)
  match marchLoop m ray.d increment stopValue (nSteps - 1) (p + increment) 4
      (lookupDensity m p ray.d + lookupDensity m pLast ray.d) with
  | none => ⊤
  | some s => ((s * m.densityMultiplier * stepSize * (1 / 3) : ℚ) : WithTop ℚ)

/-- `HeterogeneousMedium::integrateDensity`: composite Simpson
quadrature of the density along the clipped ray segment; `⊤` models the
`+infinity` early-exit sentinel. -/
def integrateDensity (m : Medium) (ray : Ray) : WithTop ℚ :=
  match clippedSegment m ray with
  | none => ((0 : ℚ) : WithTop ℚ)
  | some (mint, maxt) => marchBody m ray mint maxt

/-- The value the quadrature march would compute on `[mint, maxt]`
if neither the early exit nor the forward-progress stall triggered:
the completed composite Simpson estimate. -/
def simpsonBody (m : Medium) (ray : Ray) (mint maxt : ℚ) : ℚ :=
  let length := maxt - mint
  let p := ray.at mint
  let pLast := ray.at maxt
  let nSteps := quadNSteps length m.stepSize
  let stepSize := length / (nSteps : ℚ)
  let increment := Vec3.smul stepSize ray.d
  marchSum m ray.d increment (nSteps - 1) (p + increment) 4
      (lookupDensity m p ray.d + lookupDensity m pLast ray.d)
    * m.densityMultiplier * stepSize * (1 / 3)

/-- The completed composite Simpson estimate of the ray's clipped
segment (`0` for degenerate segments, like `integrateDensity`). -/
def simpsonTotal (m : Medium) (ray : Ray) : ℚ :=
  match clippedSegment m ray with
  | none => 0
  | some (mint, maxt) => simpsonBody m ray mint maxt

/-- Result record of `invertDensityIntegral` (the function's boolean
return value together with its four output parameters; the output
parameter `t` is reported as `0` on the failure paths, where the C++
code leaves it unassigned and no caller reads it). -/
structure InvertResult where
  success : Bool
  integratedDensity : ℚ
  t : ℚ
  densityAtMinT : ℚ
  densityAtT : ℚ
deriving DecidableEq

/-- The Lagrange polynomial from the Simpson quadrature (line 389),
namely the derivative `dfx` of the integrated polynomial, also used as
`densityAtT` on success (line 411). -/
def fitDeriv (node1 node2 node3 stepSize temp ssSqr x : ℚ) : ℚ :=
  temp * (node1 * ssSqr - (3 * node1 - 4 * node2 + node3) * stepSize * x
    + 2 * (node1 - 2 * node2 + node3) * x * x)

/-- The integrated version of the Lagrange polynomial (line 403),
offset by the running integral `acc` of the preceding steps. -/
def fitInt (acc node1 node2 node3 stepSize temp ssSqr x : ℚ) : ℚ :=
  acc + temp * (1 / 6) * (x *
    (6 * node1 * ssSqr - 3 * (3 * node1 - 4 * node2 + node3) * stepSize * x
      + 4 * (node1 - 2 * node2 + node3) * x * x))

/-- The bracket safeguard of the Newton iteration (line 399): replace
an iterate that leaves `(a, b)`, or one produced by a vanishing
derivative, with the bracket midpoint. -/
def safeNext (a b xN dfx : ℚ) : ℚ :=
  if xN ≤ a ∨ b ≤ xN ∨ dfx = 0 then (b + a) / 2 else xN

/-- One iteration of the Newton-Bisection solve (lines 384-426): from
the current bracket `[a, b]`, iterate `x` and residual `fx`, compute
the next iterate (bisection fallback if it leaves the bracket or the
derivative vanishes) and the new residual of the integrated Lagrange
polynomial.  Returns `(x1, intval, fx1)`. -/
def newtonStep (desired acc node1 node2 node3 stepSize temp ssSqr : ℚ)
    (a b x fx : ℚ) : ℚ × ℚ × ℚ :=
  let dfx := fitDeriv node1 node2 node3 stepSize temp ssSqr x
  let x1 := safeNext a b (x - fx / dfx) dfx
  let intval := fitInt acc node1 node2 node3 stepSize temp ssSqr x1
  (x1, intval, intval - desired)

/-- Successful return of the Newton-Bisection solve (lines 408-414):
the solution distance, the matched integral value and the density at
the solution from the fitted quadratic. -/
def newtonSuccess (acc node1 node2 node3 stepSize temp ssSqr tBase densityAtMinT x1 : ℚ) :
    InvertResult :=
  { success := true
    integratedDensity := fitInt acc node1 node2 node3 stepSize temp ssSqr x1
    t := tBase + x1
    densityAtMinT := densityAtMinT
    densityAtT := fitDeriv node1 node2 node3 stepSize temp ssSqr x1 }

/-- Failure return of the inversion: `false` with the integrated
density accumulated so far (lines 415-420 and 440). -/
def invertFail (acc densityAtMinT : ℚ) : InvertResult :=
  { success := false, integratedDensity := acc, t := 0,
    densityAtMinT := densityAtMinT, densityAtT := 0 }

/-- The Newton-Bisection loop (`while (true)` at line 384): the fuel
argument counts the iterations still allowed after the current one, so
the initial fuel `29` yields the source's cap of 30 iterations
(`++it > 30`). -/
def newtonLoop (desired acc node1 node2 node3 stepSize temp ssSqr tBase densityAtMinT : ℚ) :
    ℕ → ℚ → ℚ → ℚ → ℚ → InvertResult
  | 0, a, b, x, fx =>
      let s := newtonStep desired acc node1 node2 node3 stepSize temp ssSqr a b x fx
      if |s.2.2| < 1 / 1000000 then
        newtonSuccess acc node1 node2 node3 stepSize temp ssSqr tBase densityAtMinT s.1
      else invertFail acc densityAtMinT
  | f + 1, a, b, x, fx =>
      let s := newtonStep desired acc node1 node2 node3 stepSize temp ssSqr a b x fx
      if |s.2.2| < 1 / 1000000 then
        newtonSuccess acc node1 node2 node3 stepSize temp ssSqr tBase densityAtMinT s.1
      else if 0 < s.2.2 then
        newtonLoop desired acc node1 node2 node3 stepSize temp ssSqr tBase densityAtMinT
          f a s.1 s.1 s.2.2
      else
        newtonLoop desired acc node1 node2 node3 stepSize temp ssSqr tBase densityAtMinT
          f s.1 b s.1 s.2.2

/-- The marching loop of `invertDensityIntegral` (lines 359-438): march
in Simpson triplets spaced `stepSize / 2` apart; when a step's running
integral reaches the target, hand over to the Newton-Bisection solve;
stop with failure on a forward-progress stall or when the segment is
exhausted.  `node1` carries the lookup at the current position `p`. -/
def invLoop (m : Medium) (ray : Ray)
    (desired mint stepSize multiplier densityAtMinT : ℚ) (halfStep fullStep : Vec3) :
    ℕ → ℕ → Vec3 → ℚ → ℚ → InvertResult
  | 0, _, _, _, acc => invertFail acc densityAtMinT
  | r + 1, i, p, node1, acc =>
      let node2 := lookupDensity m (p + halfStep) ray.d
      let node3 := lookupDensity m (p + fullStep) ray.d
      let newDensity := acc + multiplier * (node1 + node2 * 4 + node3)
      if desired ≤ newDensity then
        newtonLoop desired acc node1 node2 node3 stepSize
          (m.densityMultiplier / (stepSize * stepSize)) (stepSize * stepSize)
          (mint + stepSize * (i : ℚ)) densityAtMinT 29 0 stepSize 0 (acc - desired)
      else if p + fullStep = p then invertFail acc densityAtMinT
      else invLoop m ray desired mint stepSize multiplier densityAtMinT halfStep fullStep
        r (i + 1) (p + fullStep) node3 newDensity

/-- The inversion march of `invertDensityIntegral` on the clipped
segment `[mint, maxt]` (step count uses the factor of 2 because the
routine samples the integrand between steps). -/
def invertBody (m : Medium) (ray : Ray) (mint maxt desired : ℚ) : InvertResult :=
  let length := maxt - mint
  let p := ray.at mint
  let nSteps := (⌈length / (2 * m.stepSize)⌉).toNat
  let stepSize := length / (nSteps : ℚ)
  let multiplier := (1 / 6) * stepSize * m.densityMultiplier
  let fullStep := Vec3.smul stepSize ray.d
  let halfStep := Vec3.smul (1 / 2) fullStep
  let node1 := lookupDensity m p ray.d
  let densityAtMinT := if ray.mint = mint then node1 * m.densityMultiplier else 0
  invLoop m ray desired mint stepSize multiplier densityAtMinT halfStep fullStep
    nSteps 0 p node1 0

/-- `HeterogeneousMedium::invertDensityIntegral`: solve
`∫_{mint}^{t} density = desired` by a Simpson march combined with a
per-step safeguarded Newton-Bisection solve against the fitted
quadratic. -/
def invertDensityIntegral (m : Medium) (ray : Ray) (desired : ℚ) : InvertResult :=
  match clippedSegment m ray with
  | none => invertFail 0 0
  | some (mint, maxt) => invertBody m ray mint maxt desired

/-- The pure running total of the inversion march (the value `acc`
reaches after the given number of full steps when no step triggers the
Newton solve). -/
def invSum (m : Medium) (d : Vec3) (multiplier : ℚ) (halfStep fullStep : Vec3) :
    ℕ → Vec3 → ℚ → ℚ
  | 0, _, acc => acc
  | r + 1, p, acc =>
      invSum m d multiplier halfStep fullStep r (p + fullStep)
        (acc + multiplier * (lookupDensity m p d
          + lookupDensity m (p + halfStep) d * 4 + lookupDensity m (p + fullStep) d))

/-- `exp(-x)` lifted to the integrator's extended result type:
the IEEE identity `exp(-inf) = 0` handles the early-exit sentinel. -/
def expNegD (m : Medium) : WithTop ℚ → ℚ
  | ⊤ => 0
  | (q : ℚ) => m.exp (-q)

/-- One ratio-tracking run of the stochastic transmittance estimator
(inner `while (true)` of `getTransmittance`, lines 464-480): returns
the run's contribution (1 on surviving past `maxt`, 0 on an accepted
collision) and the unconsumed remainder of the sampler stream. -/
def ratioRun (m : Medium) (ray : Ray) (maxt : ℚ) : ℚ → List ℚ → Option (ℚ × List ℚ)
  | _, [] => none
  | t, [xi] =>
      let t1 := t - m.log (1 - xi) * m.invMaxDensity
      if maxt ≤ t1 then some (1, []) else none
  | t, xi :: xi2 :: rest2 =>
      let t1 := t - m.log (1 - xi) * m.invMaxDensity
      if maxt ≤ t1 then some (1, xi2 :: rest2)
      else
        let density := lookupDensity m (ray.at t1) ray.d * m.densityMultiplier
        if xi2 < density * m.invMaxDensity then some (0, rest2)
        else ratioRun m ray maxt t1 rest2

/-- `HeterogeneousMedium::getTransmittance`: deterministic
`exp(-integrateDensity)` under Simpson quadrature or when no sampler is
supplied; otherwise the two-sample ratio-tracking estimate. -/
def getTransmittance (m : Medium) (ray : Ray) (sampler : Option (List ℚ)) :
    Option Spectrum :=
  if m.method = EIntegrationMethod.ESimpsonQuadrature ∨ sampler = none then
    some (Spectrum.const (expNegD m (integrateDensity m ray)))
  else
    match sampler with
    | none => some (Spectrum.const (expNegD m (integrateDensity m ray)))
    | some xs =>
      match m.aabbIntersect ray with
      | none => some (Spectrum.const 1)
      | some (mint0, maxt0) =>
        let mint := max mint0 ray.mint
        let maxt := min maxt0 ray.maxt
        match ratioRun m ray maxt mint xs with
        | none => none
        | some (r1, rest) =>
          match ratioRun m ray maxt mint rest with
          | none => none
          | some (r2, _) => some (Spectrum.const ((r1 + r2) / 2))

/-- The fields of `MediumSamplingRecord` that `sampleDistance` and
`pdfDistance` write. -/
structure MediumSamplingRecord where
  t : ℚ
  p : Vec3
  sigmaS : Spectrum
  sigmaA : Spectrum
  albedo : ℚ
  orientation : Vec3
  transmittance : Spectrum
  pdfSuccess : ℚ
  pdfSuccessRev : ℚ
  pdfFailure : ℚ
deriving DecidableEq

/-- A freshly constructed sampling record. -/
def emptyRecord : MediumSamplingRecord :=
  { t := 0, p := Vec3.zero, sigmaS := Spectrum.const 0, sigmaA := Spectrum.const 0,
    albedo := 0, orientation := Vec3.zero, transmittance := Spectrum.const 0,
    pdfSuccess := 0, pdfSuccessRev := 0, pdfFailure := 0 }

/-- The Woodcock-tracking loop of `sampleDistance` (lines 529-552):
propose exponential steps against the majorant; on acceptance fill the
collision fields of the record (overwriting `transmittance` with
`albedo / sigmaS`); report no collision once a proposal passes
`maxt`. -/
def woodcockSample (m : Medium) (ray : Ray) (maxt : ℚ) :
    ℚ → MediumSamplingRecord → List ℚ → Option (Bool × MediumSamplingRecord × List ℚ)
  | _, _, [] => none
  | t, mRec, [xi] =>
      let t1 := t - m.log (1 - xi) * m.invMaxDensity
      if maxt ≤ t1 then some (false, mRec, []) else none
  | t, mRec, xi :: xi2 :: rest2 =>
      let t1 := t - m.log (1 - xi) * m.invMaxDensity
      if maxt ≤ t1 then some (false, mRec, xi2 :: rest2)
      else
        let p := ray.at t1
        let densityAtT := lookupDensity m p ray.d * m.densityMultiplier
        if xi2 < densityAtT * m.invMaxDensity then
          let albedo := m.albedo p
          let sigmaS := albedo.scale densityAtT
          some (true,
            { mRec with
              t := t1, p := p, sigmaS := sigmaS,
              sigmaA := (Spectrum.const densityAtT).sub sigmaS,
              albedo := albedo.maxComponent,
              transmittance := albedo.div sigmaS,
              orientation := if m.hasOrientation then m.orientation p else Vec3.zero },
            rest2)
        else woodcockSample m ray maxt t1 mRec rest2

/-- `HeterogeneousMedium::sampleDistance`: Simpson quadrature inverts
the density integral for `-log(1 - xi)`; Woodcock tracking runs the
rejection loop after setting the four probability fields to the
invalid sentinel `1.0`.  The boolean result is
`success && mRec.pdfSuccess > 0`. -/
def sampleDistance (m : Medium) (ray : Ray) (mRec0 : MediumSamplingRecord)
    (sampler : List ℚ) : Option (Bool × MediumSamplingRecord) :=
  match m.method with
  | EIntegrationMethod.ESimpsonQuadrature =>
    match sampler with
    | [] => none
    | xi :: _ =>
      let desired := - m.log (1 - xi)
      let r := invertDensityIntegral m ray desired
      let mRec1 : MediumSamplingRecord :=
        if r.success then
          let p := ray.at r.t
          let albedo := m.albedo p
          let sigmaS := albedo.scale r.densityAtT
          { mRec0 with
            t := r.t, p := p, sigmaS := sigmaS,
            sigmaA := (Spectrum.const r.densityAtT).sub sigmaS,
            albedo := albedo.maxComponent,
            orientation := if m.hasOrientation then m.orientation p else Vec3.zero }
        else mRec0
      let expVal := m.exp (- r.integratedDensity)
      let mRec2 : MediumSamplingRecord := { mRec1 with
                     pdfFailure := expVal,
                     pdfSuccess := expVal * r.densityAtT,
                     pdfSuccessRev := expVal * r.densityAtMinT,
                     transmittance := Spectrum.const expVal }
      some (r.success && decide (0 < mRec2.pdfSuccess), mRec2)
  | EIntegrationMethod.EWoodcockTracking =>
    let mRec1 : MediumSamplingRecord := { mRec0 with
                   pdfFailure := 1, pdfSuccess := 1, pdfSuccessRev := 1,
                   transmittance := Spectrum.const 1 }
    match m.aabbIntersect ray with
    | none => some (false, mRec1)
    | some (mint0, maxt0) =>
      let mint := max mint0 ray.mint
      let maxt := min maxt0 ray.maxt
      match woodcockSample m ray maxt mint mRec1 sampler with
      | none => none
      | some (b, mRec2, _) => some (b && decide (0 < mRec2.pdfSuccess), mRec2)

/-- `HeterogeneousMedium::pdfDistance`: supported only under Simpson
quadrature; the Woodcock branch is the fatal
`Log(EError, "unsupported integration method")`, modelled as `none`. -/
def pdfDistance (m : Medium) (ray : Ray) (mRec0 : MediumSamplingRecord) :
    Option MediumSamplingRecord :=
  match m.method with
  | EIntegrationMethod.ESimpsonQuadrature =>
    let expVal := expNegD m (integrateDensity m ray)
    some { mRec0 with
           transmittance := Spectrum.const expVal,
           pdfFailure := expVal,
           pdfSuccess := expVal * lookupDensity m (ray.at ray.maxt) ray.d
             * m.densityMultiplier,
           pdfSuccessRev := expVal * lookupDensity m (ray.at ray.mint) ray.d
             * m.densityMultiplier }
  | EIntegrationMethod.EWoodcockTracking => none

/-- Modelled from the spec: the "true optical depth" of a segment, the
exact integral of the local extinction along the ray scaled by the
global density multiplier (the quantity the quadrature integrator
approximates; it is a mathematical integral, not part of the code). -/
noncomputable def trueOpticalDepth (densityMultiplier : ℚ) (extinction : ℝ → ℝ)
    (mint maxt : ℚ) : ℝ :=
  (densityMultiplier : ℝ) * ∫ t in (mint : ℝ)..(maxt : ℝ), extinction t

/-- `n`-fold translation of a point by a vector, following the loop's
`p = p + increment` updates. -/
def addN : ℕ → Vec3 → Vec3 → Vec3
  | 0, _, p => p
  | n + 1, v, p => addN n v (p + v)

theorem addN_add_two (n : ℕ) (v p : Vec3) : addN (n + 2) v p = addN n v (p + v + v) := rfl

theorem addN_eq (n : ℕ) (v : Vec3) : ∀ p : Vec3, addN n v p = p + Vec3.smul (n : ℚ) v := by
  induction n with
  | zero =>
    intro p
    refine (Vec3.eq_iff _ _).mpr ⟨?_, ?_, ?_⟩ <;>
      simp [addN, Vec3.smul, Vec3.add_x, Vec3.add_y, Vec3.add_z]
  | succ n ih =>
    intro p
    rw [addN, ih]
    refine (Vec3.eq_iff _ _).mpr ⟨?_, ?_, ?_⟩ <;>
      simp only [Vec3.smul, Vec3.add_x, Vec3.add_y, Vec3.add_z] <;> push_cast <;> ring

theorem ceil_half (x : ℚ) : ⌈x / 2⌉ = ⌈((⌈x⌉ : ℚ)) / 2⌉ := by
  have hle : x ≤ (⌈x⌉ : ℚ) := Int.le_ceil x
  have hgt : (⌈x⌉ : ℚ) - 1 < x := by
    have := Int.ceil_lt_add_one x
    push_cast at this ⊢
    linarith
  rcases Int.even_or_odd ⌈x⌉ with ⟨j, hj⟩ | ⟨j, hj⟩
  · have hrhs : ⌈((⌈x⌉ : ℚ)) / 2⌉ = j := by
      rw [hj]
      push_cast
      rw [show ((j : ℚ) + j) / 2 = (j : ℚ) by ring]
      exact Int.ceil_intCast j
    rw [hrhs]
    rw [Int.ceil_eq_iff]
    rw [hj] at hle hgt
    push_cast at hle hgt ⊢
    constructor <;> linarith
  · have hrhs : ⌈((⌈x⌉ : ℚ)) / 2⌉ = j + 1 := by
      rw [hj, Int.ceil_eq_iff]
      push_cast
      constructor <;> linarith
    rw [hrhs]
    rw [Int.ceil_eq_iff]
    rw [hj] at hle hgt
    push_cast at hle hgt ⊢
    constructor <;> linarith

theorem quadNSteps_spec (L s : ℚ) (hL : 0 < L) (hs : 0 < s) :
    quadNSteps L s = 2 * (⌈L / (2 * s)⌉).toNat ∧ 1 ≤ (⌈L / (2 * s)⌉).toNat := by
  have h1 : (0 : ℚ) < L / s := div_pos hL hs
  have h2 : (0 : ℚ) < L / (2 * s) := div_pos hL (by positivity)
  have hk : 0 < ⌈L / s⌉ := Int.ceil_pos.mpr h1
  have hc : 0 < ⌈L / (2 * s)⌉ := Int.ceil_pos.mpr h2
  have hdiv : L / (2 * s) = (L / s) / 2 := by
    rw [div_div, mul_comm]
  have hhalf : ⌈L / (2 * s)⌉ = ⌈((⌈L / s⌉ : ℚ)) / 2⌉ := by
    rw [hdiv, ceil_half]
  have h2c : 2 * ⌈L / (2 * s)⌉ = ⌈L / s⌉ + ⌈L / s⌉ % 2 := by
    rcases Int.even_or_odd ⌈L / s⌉ with ⟨j, hj⟩ | ⟨j, hj⟩
    · have : ⌈((⌈L / s⌉ : ℚ)) / 2⌉ = j := by
        rw [hj]
        push_cast
        rw [show ((j : ℚ) + j) / 2 = (j : ℚ) by ring]
        exact Int.ceil_intCast j
      rw [hhalf, this]
      omega
    · have : ⌈((⌈L / s⌉ : ℚ)) / 2⌉ = j + 1 := by
        rw [hj, Int.ceil_eq_iff]
        push_cast
        constructor <;> linarith
      rw [hhalf, this]
      omega
  simp only [quadNSteps]
  omega

theorem marchSum_acc (m : Medium) (d incr : Vec3) :
    ∀ (k : ℕ) (p : Vec3) (w acc : ℚ),
      marchSum m d incr k p w acc = acc + marchSum m d incr k p w 0 := by
  intro k
  induction k with
  | zero => intro p w acc; simp [marchSum]
  | succ n ih =>
    intro p w acc
    rw [marchSum, marchSum]
    rw [ih (p + incr) (6 - w) (acc + w * lookupDensity m p d),
      ih (p + incr) (6 - w) (0 + w * lookupDensity m p d)]
    ring

theorem le_marchSum (m : Medium) (d incr : Vec3)
    (hnn : ∀ p, 0 ≤ lookupDensity m p d) :
    ∀ (k : ℕ) (p : Vec3) (w acc : ℚ), 0 ≤ w → w ≤ 6 →
      acc ≤ marchSum m d incr k p w acc := by
  intro k
  induction k with
  | zero => intro p w acc h0 h6; simp [marchSum]
  | succ n ih =>
    intro p w acc h0 h6
    rw [marchSum]
    have h1 : acc ≤ acc + w * lookupDensity m p d := by
      have := mul_nonneg h0 (hnn p)
      linarith
    exact h1.trans (ih (p + incr) (6 - w) (acc + w * lookupDensity m p d)
      (by linarith) (by linarith))

theorem marchLoop_char (m : Medium) (d incr : Vec3) (stopValue : ℚ)
    (hnn : ∀ p, 0 ≤ lookupDensity m p d) (hv : incr ≠ Vec3.zero) :
    ∀ (k : ℕ) (p : Vec3) (w acc : ℚ), 0 ≤ w → w ≤ 6 →
      marchLoop m d incr stopValue (k + 1) p w acc =
        if stopValue < marchSum m d incr (k + 1) p w acc then none
        else some (marchSum m d incr (k + 1) p w acc) := by
  intro k
  induction k with
  | zero =>
    intro p w acc h0 h6
    have hst : ¬ (p + incr = p) := by
      rw [Vec3.add_right_eq_self]; exact hv
    simp only [marchLoop, marchSum, hst, if_false]
  | succ n ih =>
    intro p w acc h0 h6
    have hst : ¬ (p + incr = p) := by
      rw [Vec3.add_right_eq_self]; exact hv
    rw [marchLoop, marchSum]
    by_cases hlt : stopValue < acc + w * lookupDensity m p d
    · have hmono : acc + w * lookupDensity m p d ≤
          marchSum m d incr (n + 1) (p + incr) (6 - w) (acc + w * lookupDensity m p d) :=
        le_marchSum m d incr hnn (n + 1) (p + incr) (6 - w) _ (by linarith) (by linarith)
      have : stopValue < marchSum m d incr (n + 1) (p + incr) (6 - w)
          (acc + w * lookupDensity m p d) := lt_of_lt_of_le hlt hmono
      simp only [hlt, if_true, this]
    · simp only [hlt, if_false, hst]
      exact ih (p + incr) (6 - w) (acc + w * lookupDensity m p d) (by linarith) (by linarith)

theorem safeNext_mem (a b xN dfx : ℚ) (hab : a < b) :
    a < safeNext a b xN dfx ∧ safeNext a b xN dfx < b := by
  unfold safeNext
  split
  · constructor <;> linarith
  · next h =>
    push_neg at h
    exact ⟨h.1, h.2.1⟩

theorem newtonStep_mem (desired acc node1 node2 node3 stepSize temp ssSqr a b x fx : ℚ)
    (hab : a < b) :
    a < (newtonStep desired acc node1 node2 node3 stepSize temp ssSqr a b x fx).1 ∧
      (newtonStep desired acc node1 node2 node3 stepSize temp ssSqr a b x fx).1 < b := by
  simp only [newtonStep]
  exact safeNext_mem _ _ _ _ hab

theorem newtonStep_intval (desired acc node1 node2 node3 stepSize temp ssSqr a b x fx : ℚ) :
    (newtonStep desired acc node1 node2 node3 stepSize temp ssSqr a b x fx).2.1 =
      fitInt acc node1 node2 node3 stepSize temp ssSqr
        (newtonStep desired acc node1 node2 node3 stepSize temp ssSqr a b x fx).1 := rfl

theorem newtonStep_residual (desired acc node1 node2 node3 stepSize temp ssSqr a b x fx : ℚ) :
    (newtonStep desired acc node1 node2 node3 stepSize temp ssSqr a b x fx).2.2 =
      (newtonStep desired acc node1 node2 node3 stepSize temp ssSqr a b x fx).2.1 - desired :=
  rfl

theorem newtonLoop_success_bounds
    (desired acc node1 node2 node3 stepSize temp ssSqr tBase dMinT : ℚ) :
    ∀ (fuel : ℕ) (a b x fx : ℚ), 0 ≤ a → a < b → b ≤ stepSize →
      (newtonLoop desired acc node1 node2 node3 stepSize temp ssSqr tBase dMinT
          fuel a b x fx).success = true →
      tBase ≤ (newtonLoop desired acc node1 node2 node3 stepSize temp ssSqr tBase dMinT
          fuel a b x fx).t ∧
      (newtonLoop desired acc node1 node2 node3 stepSize temp ssSqr tBase dMinT
          fuel a b x fx).t ≤ tBase + stepSize ∧
      |(newtonLoop desired acc node1 node2 node3 stepSize temp ssSqr tBase dMinT
          fuel a b x fx).integratedDensity - desired| < 1 / 1000000 := by
  intro fuel
  induction fuel with
  | zero =>
    intro a b x fx h0 hab hbs hsucc
    rw [newtonLoop] at hsucc ⊢
    obtain ⟨hx1a, hx1b⟩ :=
      newtonStep_mem desired acc node1 node2 node3 stepSize temp ssSqr a b x fx hab
    by_cases hcv : |(newtonStep desired acc node1 node2 node3 stepSize temp ssSqr
        a b x fx).2.2| < 1 / 1000000
    · simp only [hcv, if_true] at hsucc ⊢
      refine ⟨?_, ?_, ?_⟩
      · simp only [newtonSuccess]
        linarith
      · simp only [newtonSuccess]
        linarith
      · simp only [newtonSuccess]
        rw [← newtonStep_intval, ← newtonStep_residual]
        exact hcv
    · simp only [hcv, if_false, invertFail] at hsucc
      exact Bool.noConfusion hsucc
  | succ f ih =>
    intro a b x fx h0 hab hbs hsucc
    rw [newtonLoop] at hsucc ⊢
    obtain ⟨hx1a, hx1b⟩ :=
      newtonStep_mem desired acc node1 node2 node3 stepSize temp ssSqr a b x fx hab
    by_cases hcv : |(newtonStep desired acc node1 node2 node3 stepSize temp ssSqr
        a b x fx).2.2| < 1 / 1000000
    · simp only [hcv, if_true] at hsucc ⊢
      refine ⟨?_, ?_, ?_⟩
      · simp only [newtonSuccess]
        linarith
      · simp only [newtonSuccess]
        linarith
      · simp only [newtonSuccess]
        rw [← newtonStep_intval, ← newtonStep_residual]
        exact hcv
    · simp only [hcv, if_false] at hsucc ⊢
      by_cases hpos : 0 < (newtonStep desired acc node1 node2 node3 stepSize temp ssSqr
          a b x fx).2.2
      · simp only [hpos, if_true] at hsucc ⊢
        exact ih a _ _ _ h0 hx1a (le_of_lt (lt_of_lt_of_le hx1b hbs)) hsucc
      · simp only [hpos, if_false] at hsucc ⊢
        exact ih _ b _ _ (le_of_lt (lt_of_le_of_lt h0 hx1a)) hx1b hbs hsucc

theorem invLoop_success (m : Medium) (ray : Ray)
    (desired mint stepSize multiplier dMinT : ℚ) (halfStep fullStep : Vec3)
    (hsp : 0 < stepSize) :
    ∀ (r i : ℕ) (p : Vec3) (node1 acc : ℚ),
      (invLoop m ray desired mint stepSize multiplier dMinT halfStep fullStep
          r i p node1 acc).success = true →
      mint + stepSize * (i : ℚ) ≤ (invLoop m ray desired mint stepSize multiplier dMinT
          halfStep fullStep r i p node1 acc).t ∧
      (invLoop m ray desired mint stepSize multiplier dMinT halfStep fullStep
          r i p node1 acc).t ≤ mint + stepSize * ((i : ℚ) + (r : ℚ)) ∧
      |(invLoop m ray desired mint stepSize multiplier dMinT halfStep fullStep
          r i p node1 acc).integratedDensity - desired| < 1 / 1000000 := by
  intro r
  induction r with
  | zero =>
    intro i p node1 acc hsucc
    rw [invLoop] at hsucc
    simp only [invertFail] at hsucc
    exact Bool.noConfusion hsucc
  | succ n ih =>
    intro i p node1 acc hsucc
    rw [invLoop] at hsucc ⊢
    by_cases htr : desired ≤ acc + multiplier * (node1
        + lookupDensity m (p + halfStep) ray.d * 4 + lookupDensity m (p + fullStep) ray.d)
    · simp only [htr, if_true] at hsucc ⊢
      have hb := newtonLoop_success_bounds desired acc node1
        (lookupDensity m (p + halfStep) ray.d) (lookupDensity m (p + fullStep) ray.d)
        stepSize (m.densityMultiplier / (stepSize * stepSize)) (stepSize * stepSize)
        (mint + stepSize * (i : ℚ)) dMinT 29 0 stepSize 0 (acc - desired)
        le_rfl hsp le_rfl hsucc
      refine ⟨hb.1, ?_, hb.2.2⟩
      have h1 : mint + stepSize * (i : ℚ) + stepSize ≤ mint + stepSize * ((i : ℚ) + ((n : ℚ) + 1)) := by
        have hn : (0 : ℚ) ≤ (n : ℚ) := Nat.cast_nonneg n
        nlinarith
      have h5 : ((n + 1 : ℕ) : ℚ) = (n : ℚ) + 1 := by push_cast; ring
      rw [h5]
      exact le_trans hb.2.1 h1
    · simp only [htr, if_false] at hsucc ⊢
      by_cases hst : p + fullStep = p
      · simp only [hst, if_true] at hsucc
        simp only [invertFail] at hsucc
        exact Bool.noConfusion hsucc
      · simp only [hst, if_false] at hsucc ⊢
        have hres := ih (i + 1) (p + fullStep) (lookupDensity m (p + fullStep) ray.d)
          (acc + multiplier * (node1 + lookupDensity m (p + halfStep) ray.d * 4
            + lookupDensity m (p + fullStep) ray.d)) hsucc
        refine ⟨?_, ?_, hres.2.2⟩
        · have h2 : mint + stepSize * (i : ℚ) ≤ mint + stepSize * ((i : ℚ) + 1) := by nlinarith
          have h3 : ((i + 1 : ℕ) : ℚ) = (i : ℚ) + 1 := by push_cast; ring
          rw [h3] at hres
          exact le_trans h2 hres.1
        · have h3 : ((i + 1 : ℕ) : ℚ) = (i : ℚ) + 1 := by push_cast; ring
          rw [h3] at hres
          have h4 : (i : ℚ) + 1 + (n : ℚ) = (i : ℚ) + ((n : ℚ) + 1) := by ring
          rw [h4] at hres
          have h5 : ((n + 1 : ℕ) : ℚ) = (n : ℚ) + 1 := by push_cast; ring
          rw [h5]
          exact hres.2.1

theorem le_invSum (m : Medium) (d : Vec3) (multiplier : ℚ) (halfStep fullStep : Vec3)
    (hnn : ∀ p, 0 ≤ lookupDensity m p d) (hm : 0 ≤ multiplier) :
    ∀ (r : ℕ) (p : Vec3) (acc : ℚ),
      acc ≤ invSum m d multiplier halfStep fullStep r p acc := by
  intro r
  induction r with
  | zero => intro p acc; simp [invSum]
  | succ n ih =>
    intro p acc
    rw [invSum]
    have h1 : 0 ≤ multiplier * (lookupDensity m p d
        + lookupDensity m (p + halfStep) d * 4 + lookupDensity m (p + fullStep) d) := by
      have := hnn p
      have := hnn (p + halfStep)
      have := hnn (p + fullStep)
      nlinarith
    have h2 := ih (p + fullStep) (acc + multiplier * (lookupDensity m p d
        + lookupDensity m (p + halfStep) d * 4 + lookupDensity m (p + fullStep) d))
    linarith

theorem invLoop_no_trigger (m : Medium) (ray : Ray)
    (desired mint stepSize multiplier dMinT : ℚ) (halfStep fullStep : Vec3)
    (hnn : ∀ p, 0 ≤ lookupDensity m p ray.d) (hm : 0 ≤ multiplier)
    (hfs : fullStep ≠ Vec3.zero) :
    ∀ (r i : ℕ) (p : Vec3) (acc : ℚ),
      invSum m ray.d multiplier halfStep fullStep r p acc < desired →
      invLoop m ray desired mint stepSize multiplier dMinT halfStep fullStep
          r i p (lookupDensity m p ray.d) acc
        = invertFail (invSum m ray.d multiplier halfStep fullStep r p acc) dMinT := by
  intro r
  induction r with
  | zero =>
    intro i p acc hlt
    rw [invLoop, invSum]
  | succ n ih =>
    intro i p acc hlt
    rw [invLoop]
    rw [invSum] at hlt
    have hmono := le_invSum m ray.d multiplier halfStep fullStep hnn hm n (p + fullStep)
      (acc + multiplier * (lookupDensity m p ray.d
        + lookupDensity m (p + halfStep) ray.d * 4 + lookupDensity m (p + fullStep) ray.d))
    have htr : ¬ desired ≤ acc + multiplier * (lookupDensity m p ray.d
        + lookupDensity m (p + halfStep) ray.d * 4 + lookupDensity m (p + fullStep) ray.d) := by
      push_neg
      exact lt_of_le_of_lt hmono hlt
    have hst : ¬ (p + fullStep = p) := by
      rw [Vec3.add_right_eq_self]; exact hfs
    simp only [htr, if_false, hst]
    rw [ih (i + 1) (p + fullStep) _ hlt, invSum]

theorem marchSum_two_step (m : Medium) (d v : Vec3) (j : ℕ) (q : Vec3) (A : ℚ) :
    marchSum m d v (j + 2) q 4 A
      = marchSum m d v j (q + v + v) 4
          (A + 4 * lookupDensity m q d + 2 * lookupDensity m (q + v) d) := by
  rw [marchSum, marchSum]
  norm_num

theorem invSum_eq_march (m : Medium) (d : Vec3) (M : ℚ) (v : Vec3) :
    ∀ (k : ℕ) (p : Vec3) (C : ℚ),
      invSum m d M v (v + v) (k + 1) p C
        = C + M * (lookupDensity m p d
            + lookupDensity m (addN (2 * k + 2) v p) d
            + marchSum m d v (2 * k + 1) (p + v) 4 0) := by
  intro k
  induction k with
  | zero =>
    intro p C
    have h2 : (2 * 0 + 2 : ℕ) = 0 + 2 := by norm_num
    have h1 : (2 * 0 + 1 : ℕ) = 0 + 1 := by norm_num
    rw [h2, h1, addN_add_two]
    rw [invSum, invSum, marchSum, marchSum, addN]
    rw [← Vec3.add_assoc]
    ring
  | succ n ih =>
    intro p C
    rw [invSum]
    rw [ih (p + (v + v)) (C + M * (lookupDensity m p d
      + lookupDensity m (p + v) d * 4 + lookupDensity m (p + (v + v)) d))]
    have e1 : (2 * (n + 1) + 2 : ℕ) = (2 * n + 2) + 2 := by ring
    have e2 : (2 * (n + 1) + 1 : ℕ) = (2 * n + 1) + 2 := by ring
    rw [e1, e2, addN_add_two (2 * n + 2) v p, marchSum_two_step m d v (2 * n + 1) (p + v) 0]
    rw [marchSum_acc m d v (2 * n + 1) (p + v + v + v) 4
      (0 + 4 * lookupDensity m (p + v) d + 2 * lookupDensity m (p + v + v) d)]
    rw [← Vec3.add_assoc p v v]
    ring

/-! Concrete media used to instantiate the theorems below. -/

/-- Unit direction along the first axis. -/
def xdir : Vec3 := ⟨1, 0, 0⟩

/-- A configured medium with constant density `sigma`, unit step size,
unit density multiplier and a bound whose ray intersection always
reports the parametric interval `[-1, 3]`.  The abstract machine
functions are instantiated with simple rational stand-ins
(`log x = x - 1`, so that `-log(1 - xi) = xi`, mirroring the local
behaviour of the logarithm; `stopAfterDensity = 9.21`, close to
`-ln(1e-4)`). -/
def constMedium (method : EIntegrationMethod) (sigma : ℚ) : Medium :=
  { method := method
    density := fun _ => sigma
    albedo := fun _ => Spectrum.const (1 / 2)
    orientation := fun _ => Vec3.zero
    hasOrientation := false
    anisotropicMedium := false
    sigmaDir := fun _ => 1
    stepSize := 1
    densityMultiplier := 1
    invMaxDensity := 1
    aabbIntersect := fun _ => some (-1, 3)
    exp := fun _ => 1
    log := fun x => x - 1
    stopAfterDensity := 921 / 100 }

/-- A ray from the origin along the first axis with `[mint, maxt] = [0, 2]`. -/
def ray02 : Ray := ⟨Vec3.zero, xdir, 0, 2⟩

/-- Quadrature medium of constant density 1. -/
def mQuad : Medium := constMedium EIntegrationMethod.ESimpsonQuadrature 1

/-- Woodcock medium of constant density 1. -/
def mWood : Medium := constMedium EIntegrationMethod.EWoodcockTracking 1

/-- Claim C2: under the Quadrature strategy `getTransmittance` returns
exactly `exp(-integrateDensity(ray))` in every spectral channel, for
every sampler argument (the sampler is unused). -/
theorem claim_C2_transmittance_quadrature (m : Medium) (ray : Ray)
    (hq : m.method = EIntegrationMethod.ESimpsonQuadrature) :
    ∀ sampler : Option (List ℚ),
      getTransmittance m ray sampler
          = some (Spectrum.const (expNegD m (integrateDensity m ray))) ∧
        (Spectrum.const (expNegD m (integrateDensity m ray))).c0
          = (Spectrum.const (expNegD m (integrateDensity m ray))).c1 ∧
        (Spectrum.const (expNegD m (integrateDensity m ray))).c1
          = (Spectrum.const (expNegD m (integrateDensity m ray))).c2 := by
  intro sampler
  refine ⟨?_, rfl, rfl⟩
  simp [getTransmittance, hq]

/-- Witness for claim C2 at a concrete quadrature medium with two
different sampler arguments, showing the value and the sampler
independence. -/
theorem claim_C2_witness :
    getTransmittance mQuad ray02 (some [1 / 2])
        = some (Spectrum.const (expNegD mQuad (integrateDensity mQuad ray02)))
      ∧ getTransmittance mQuad ray02 none
        = some (Spectrum.const (expNegD mQuad (integrateDensity mQuad ray02))) :=
  ⟨(claim_C2_transmittance_quadrature mQuad ray02 rfl (some [1 / 2])).1,
    (claim_C2_transmittance_quadrature mQuad ray02 rfl none).1⟩

/-- Claim C4: `pdfDistance` under Woodcock tracking is the fatal error
path and produces no result record; under Simpson quadrature it
completes normally. -/
theorem claim_C4_pdfDistance_fatal (m : Medium) (ray : Ray) (mRec0 : MediumSamplingRecord) :
    (m.method = EIntegrationMethod.EWoodcockTracking →
      pdfDistance m ray mRec0 = none) ∧
    (m.method = EIntegrationMethod.ESimpsonQuadrature →
      (pdfDistance m ray mRec0).isSome = true) := by
  constructor <;> intro h <;> simp [pdfDistance, h]

/-- Witness for claim C4 at concrete media of both strategies. -/
theorem claim_C4_witness :
    pdfDistance mWood ray02 emptyRecord = none ∧
      (pdfDistance mQuad ray02 emptyRecord).isSome = true :=
  ⟨(claim_C4_pdfDistance_fatal mWood ray02 emptyRecord).1 rfl,
    (claim_C4_pdfDistance_fatal mQuad ray02 emptyRecord).2 rfl⟩

/-- Woodcock medium with constant density 1 whose `exp` stand-in
returns `3/25`. -/
def mC5 : Medium :=
  { constMedium EIntegrationMethod.EWoodcockTracking 1 with exp := fun _ => 3 / 25 }

theorem mC5_clip : clippedSegment mC5 ray02 = some (0, 2) := by
  norm_num [clippedSegment, mC5, constMedium, ray02, xdir, Vec3.zero, maxCompOf, Ray.at,
    Vec3.smul, Vec3.add_x, Vec3.add_y, Vec3.add_z]

theorem mC5_integrate : integrateDensity mC5 ray02 = ((2 : ℚ) : WithTop ℚ) := by
  unfold integrateDensity
  rw [mC5_clip]
  norm_num [marchBody, quadNSteps, marchLoop, lookupDensity, Ray.at, Vec3.smul, Vec3.add_x,
    Vec3.add_y, Vec3.add_z, mC5, constMedium, ray02, xdir, Vec3.zero, Vec3.mk.injEq,
    show (2 : ℤ).toNat = 2 from rfl, ← WithTop.coe_mul]

/-- Counterexample to claim C5: under the StochasticTracking strategy
with no sampler supplied, `getTransmittance` does not fail; it silently
returns the deterministic quadrature value `exp(-integrateDensity)`
(here `exp(-2) = 3/25` under the concrete `exp` stand-in). -/
theorem claim_C5_counterexample :
    mC5.method = EIntegrationMethod.EWoodcockTracking ∧
      getTransmittance mC5 ray02 none = some (Spectrum.const (3 / 25)) ∧
      getTransmittance mC5 ray02 none
        = some (Spectrum.const (mC5.exp (-(2 : ℚ)))) := by
  have h : getTransmittance mC5 ray02 none
      = some (Spectrum.const (mC5.exp (-(2 : ℚ)))) := by
    rw [getTransmittance, if_pos (Or.inr rfl), mC5_integrate]
    rfl
  refine ⟨rfl, ?_, h⟩
  rw [h]
  norm_num [mC5, constMedium]

/-- Claim C5 as amended: with no sampler supplied under the
StochasticTracking strategy, `getTransmittance` falls back to the
deterministic `exp(-integrateDensity(ray))` instead of failing. -/
theorem claim_C5_amended_fallback (m : Medium) (ray : Ray)
    (_hw : m.method = EIntegrationMethod.EWoodcockTracking) :
    getTransmittance m ray none
      = some (Spectrum.const (expNegD m (integrateDensity m ray))) := by
  simp [getTransmittance]

/-- Witness for the amended claim C5 at a concrete Woodcock medium. -/
theorem claim_C5_amended_witness :
    getTransmittance mWood ray02 none
      = some (Spectrum.const (expNegD mWood (integrateDensity mWood ray02))) :=
  claim_C5_amended_fallback mWood ray02 rfl

/-- Claim C8: the density adapter returns the base density when no
directional multiplier is configured or the base density is zero;
otherwise it multiplies by the directional multiplier evaluated on
`dot(d, orientation(p))` when the local orientation is non-zero and
returns exactly zero when it is the zero vector; under the collaborator
contracts (non-negative base lookup and non-negative directional
multiplier) the result is non-negative. -/
theorem claim_C8_lookupDensity (m : Medium) (p d : Vec3)
    (hb : 0 ≤ m.density p) (hs : ∀ c, 0 ≤ m.sigmaDir c) :
    ((m.anisotropicMedium = false ∨ m.density p = 0) → lookupDensity m p d = m.density p) ∧
    (m.anisotropicMedium = true → m.density p ≠ 0 →
      (Vec3.isZero (m.orientation p) = false →
        lookupDensity m p d = m.density p * m.sigmaDir (Vec3.dot d (m.orientation p))) ∧
      (Vec3.isZero (m.orientation p) = true → lookupDensity m p d = 0)) ∧
    0 ≤ lookupDensity m p d := by
  refine ⟨?_, ?_, ?_⟩
  · rintro (ha | h0)
    · simp [lookupDensity, ha]
    · simp [lookupDensity, h0]
  · intro ha h0
    constructor <;> intro hz <;> simp [lookupDensity, ha, h0, hz]
  · simp only [lookupDensity]
    split_ifs with h1 h2
    · exact le_refl 0
    · exact mul_nonneg hb (hs _)
    · exact hb

/-- Anisotropic medium with constant density 2 and constant local
orientation along the first axis. -/
def mAniso : Medium :=
  { constMedium EIntegrationMethod.ESimpsonQuadrature 2 with
    anisotropicMedium := true
    hasOrientation := true
    orientation := fun _ => ⟨1, 0, 0⟩ }

/-- Witness for claim C8 at a concrete anisotropic medium and point. -/
theorem claim_C8_witness :
    lookupDensity mAniso Vec3.zero xdir
        = mAniso.density Vec3.zero
          * mAniso.sigmaDir (Vec3.dot xdir (mAniso.orientation Vec3.zero)) ∧
      0 ≤ lookupDensity mAniso Vec3.zero xdir := by
  have h := claim_C8_lookupDensity mAniso Vec3.zero xdir
    (by norm_num [mAniso, constMedium])
    (fun c => by norm_num [mAniso, constMedium])
  refine ⟨(h.2.1 rfl (by norm_num [mAniso, constMedium])).1 ?_, h.2.2⟩
  norm_num [mAniso, constMedium, Vec3.isZero, Vec3.zero, Vec3.mk.injEq]

/-- Claim C9: for a non-degenerate segment of length `L` and step size
`s`, the quadrature integrator's sub-interval count is exactly
`2 * ceil(L / (2 * s))`, an even and positive number, and `n` intervals
of width `L / n` exactly cover the segment. -/
theorem claim_C9_quadNSteps (L s : ℚ) (hL : 0 < L) (hs : 0 < s) :
    quadNSteps L s = 2 * (⌈L / (2 * s)⌉).toNat ∧
    Even (quadNSteps L s) ∧
    0 < quadNSteps L s ∧
    (quadNSteps L s : ℚ) * (L / (quadNSteps L s : ℚ)) = L := by
  obtain ⟨h1, h2⟩ := quadNSteps_spec L s hL hs
  refine ⟨h1, ⟨(⌈L / (2 * s)⌉).toNat, by omega⟩, by omega, ?_⟩
  have hpos : (0 : ℚ) < (quadNSteps L s : ℚ) := by
    have h3 : 0 < quadNSteps L s := by omega
    exact_mod_cast h3
  field_simp

/-- Witness for claim C9 at `L = 3`, `s = 1` (odd raw count rounded up
to 4 sub-intervals). -/
theorem claim_C9_witness :
    quadNSteps 3 1 = 2 * (⌈(3 : ℚ) / (2 * 1)⌉).toNat ∧
      Even (quadNSteps 3 1) ∧
      0 < quadNSteps 3 1 ∧
      (quadNSteps 3 1 : ℚ) * (3 / (quadNSteps 3 1 : ℚ)) = 3 :=
  claim_C9_quadNSteps 3 1 (by norm_num) (by norm_num)

/-- The record produced by the quadrature branch of `sampleDistance`
(definitionally equal to the branch body; named so that the theorems
about the branch stay readable). -/
def quadRecord (m : Medium) (ray : Ray) (mRec0 : MediumSamplingRecord) (xi : ℚ) :
    MediumSamplingRecord :=
  let r := invertDensityIntegral m ray (- m.log (1 - xi))
  let mRec1 : MediumSamplingRecord :=
    if r.success then
      let p := ray.at r.t
      let albedo := m.albedo p
      let sigmaS := albedo.scale r.densityAtT
      { mRec0 with
        t := r.t, p := p, sigmaS := sigmaS,
        sigmaA := (Spectrum.const r.densityAtT).sub sigmaS,
        albedo := albedo.maxComponent,
        orientation := if m.hasOrientation then m.orientation p else Vec3.zero }
    else mRec0
  { mRec1 with
    pdfFailure := m.exp (- r.integratedDensity),
    pdfSuccess := m.exp (- r.integratedDensity) * r.densityAtT,
    pdfSuccessRev := m.exp (- r.integratedDensity) * r.densityAtMinT,
    transmittance := Spectrum.const (m.exp (- r.integratedDensity)) }

theorem sampleDistance_quad_eq (m : Medium) (ray : Ray)
    (mRec0 : MediumSamplingRecord) (xi : ℚ) (rest : List ℚ)
    (hq : m.method = EIntegrationMethod.ESimpsonQuadrature) :
    sampleDistance m ray mRec0 (xi :: rest)
      = some ((invertDensityIntegral m ray (- m.log (1 - xi))).success
            && decide (0 < m.exp (- (invertDensityIntegral m ray
                  (- m.log (1 - xi))).integratedDensity)
                * (invertDensityIntegral m ray (- m.log (1 - xi))).densityAtT),
          quadRecord m ray mRec0 xi) := by
  unfold sampleDistance quadRecord
  rw [hq]

/-- Claim C10: under the Quadrature strategy `sampleDistance` reports a
collision exactly when the inversion succeeds and the derived
`pdfSuccess = exp(-integratedDensity) * densityAtT` is strictly
positive; on a successful inversion the collision distance is written
into the record even when the call then reports failure because the
fitted density at `t` is zero or the exponential evaluates to zero. -/
theorem claim_C10_quadrature_success (m : Medium) (ray : Ray)
    (mRec0 : MediumSamplingRecord) (xi : ℚ) (rest : List ℚ)
    (hq : m.method = EIntegrationMethod.ESimpsonQuadrature) :
    ((sampleDistance m ray mRec0 (xi :: rest)).map Prod.fst
      = some ((invertDensityIntegral m ray (- m.log (1 - xi))).success
          && decide (0 < m.exp (- (invertDensityIntegral m ray
                (- m.log (1 - xi))).integratedDensity)
              * (invertDensityIntegral m ray (- m.log (1 - xi))).densityAtT))) ∧
    ((invertDensityIntegral m ray (- m.log (1 - xi))).success = true →
      (sampleDistance m ray mRec0 (xi :: rest)).map (fun pr => pr.2.t)
        = some (invertDensityIntegral m ray (- m.log (1 - xi))).t) ∧
    ((invertDensityIntegral m ray (- m.log (1 - xi))).success = true →
      (invertDensityIntegral m ray (- m.log (1 - xi))).densityAtT = 0 →
      (sampleDistance m ray mRec0 (xi :: rest)).map Prod.fst = some false) ∧
    ((invertDensityIntegral m ray (- m.log (1 - xi))).success = true →
      m.exp (- (invertDensityIntegral m ray (- m.log (1 - xi))).integratedDensity) = 0 →
      (sampleDistance m ray mRec0 (xi :: rest)).map Prod.fst = some false) := by
  rw [sampleDistance_quad_eq m ray mRec0 xi rest hq]
  refine ⟨rfl, ?_, ?_, ?_⟩
  · intro hs
    simp only [Option.map_some']
    show some (quadRecord m ray mRec0 xi).t = _
    unfold quadRecord
    simp [hs]
  · intro hs hd0
    simp only [Option.map_some']
    rw [hs, hd0]
    norm_num
  · intro hs he0
    simp only [Option.map_some']
    rw [hs, he0]
    norm_num

theorem mQuad_clip : clippedSegment mQuad ray02 = some (0, 2) := by
  norm_num [clippedSegment, mQuad, constMedium, ray02, xdir, Vec3.zero, maxCompOf, Ray.at,
    Vec3.smul, Vec3.add_x, Vec3.add_y, Vec3.add_z]

theorem newtonLoop_conv (desired acc node1 node2 node3 stepSize temp ssSqr tBase dMinT : ℚ)
    (fuel : ℕ) (a b x fx : ℚ)
    (h : |(newtonStep desired acc node1 node2 node3 stepSize temp ssSqr a b x fx).2.2|
      < 1 / 1000000) :
    newtonLoop desired acc node1 node2 node3 stepSize temp ssSqr tBase dMinT fuel a b x fx
      = newtonSuccess acc node1 node2 node3 stepSize temp ssSqr tBase dMinT
          (newtonStep desired acc node1 node2 node3 stepSize temp ssSqr a b x fx).1 := by
  cases fuel <;> (rw [newtonLoop]; simp only [h, if_true])

theorem mQuad_invert_half :
    invertDensityIntegral mQuad ray02 (1 / 2)
      = { success := true, integratedDensity := 1 / 2, t := 1 / 2,
          densityAtMinT := 1, densityAtT := 1 } := by
  unfold invertDensityIntegral
  rw [mQuad_clip]
  norm_num [invertBody, invLoop, newtonLoop_conv, newtonStep, newtonSuccess, safeNext,
    fitDeriv, fitInt, lookupDensity, Ray.at, Vec3.smul, Vec3.add_x, Vec3.add_y, Vec3.add_z,
    mQuad, constMedium, ray02, xdir, Vec3.zero, Vec3.mk.injEq,
    show (1 : ℤ).toNat = 1 from rfl, InvertResult.mk.injEq]

/-- Witness for claim C10 at a concrete quadrature medium: the
inversion succeeds at `t = 1/2` with positive fitted density, and
`sampleDistance` reports the collision. -/
theorem claim_C10_witness :
    (sampleDistance mQuad ray02 emptyRecord [1 / 2]).map Prod.fst = some true ∧
      (sampleDistance mQuad ray02 emptyRecord [1 / 2]).map (fun pr => pr.2.t)
        = some (1 / 2) := by
  have h := claim_C10_quadrature_success mQuad ray02 emptyRecord (1 / 2) [] rfl
  rw [show - mQuad.log (1 - 1 / 2) = 1 / 2 by norm_num [mQuad, constMedium],
    mQuad_invert_half] at h
  constructor
  · have h1 := h.1
    simpa [mQuad, constMedium] using h1
  · have h2 := h.2.1 rfl
    simpa using h2

/-- The sentinel record installed at the top of the Woodcock branch of
`sampleDistance` (lines 513-516). -/
def woodRecord0 (mRec0 : MediumSamplingRecord) : MediumSamplingRecord :=
  { mRec0 with
    pdfFailure := 1, pdfSuccess := 1, pdfSuccessRev := 1,
    transmittance := Spectrum.const 1 }

theorem sampleDistance_wood_eq (m : Medium) (ray : Ray)
    (mRec0 : MediumSamplingRecord) (sampler : List ℚ)
    (hw : m.method = EIntegrationMethod.EWoodcockTracking) :
    sampleDistance m ray mRec0 sampler
      = (match m.aabbIntersect ray with
        | none => some (false, woodRecord0 mRec0)
        | some (mint0, maxt0) =>
          match woodcockSample m ray (min maxt0 ray.maxt) (max mint0 ray.mint)
              (woodRecord0 mRec0) sampler with
          | none => none
          | some (b, mRec2, _) => some (b && decide (0 < mRec2.pdfSuccess), mRec2)) := by
  unfold sampleDistance woodRecord0
  rw [hw]

theorem woodcockSample_fields (m : Medium) (ray : Ray) (maxt : ℚ) :
    ∀ (n : ℕ) (xs : List ℚ), xs.length ≤ n → ∀ (t : ℚ) (mRec : MediumSamplingRecord)
      (b : Bool) (out : MediumSamplingRecord) (rest : List ℚ),
      woodcockSample m ray maxt t mRec xs = some (b, out, rest) →
      out.pdfSuccess = mRec.pdfSuccess ∧ out.pdfFailure = mRec.pdfFailure ∧
      out.pdfSuccessRev = mRec.pdfSuccessRev ∧
      (b = false → out = mRec) ∧
      (b = true → out.transmittance = Spectrum.div (m.albedo out.p) out.sigmaS) := by
  intro n
  induction n with
  | zero =>
    intro xs hlen t mRec b out rest hw
    have hnil : xs = [] := List.length_eq_zero.mp (Nat.le_zero.mp hlen)
    subst hnil
    rw [woodcockSample] at hw
    exact Option.noConfusion hw
  | succ n ih =>
    intro xs hlen t mRec b out rest hw
    cases xs with
    | nil =>
      rw [woodcockSample] at hw
      exact Option.noConfusion hw
    | cons xi rest1 =>
      cases rest1 with
      | nil =>
        rw [woodcockSample] at hw
        by_cases hexit : maxt ≤ t - m.log (1 - xi) * m.invMaxDensity
        · rw [if_pos hexit] at hw
          have h1 := Option.some.inj hw
          injection h1 with hb h2
          injection h2 with hout hrest
          subst hb
          subst hout
          exact ⟨rfl, rfl, rfl, fun _ => rfl, fun hcontra => Bool.noConfusion hcontra⟩
        · rw [if_neg hexit] at hw
          exact Option.noConfusion hw
      | cons xi2 rest2 =>
        rw [woodcockSample] at hw
        by_cases hexit : maxt ≤ t - m.log (1 - xi) * m.invMaxDensity
        · rw [if_pos hexit] at hw
          have h1 := Option.some.inj hw
          injection h1 with hb h2
          injection h2 with hout hrest
          subst hb
          subst hout
          exact ⟨rfl, rfl, rfl, fun _ => rfl, fun hcontra => Bool.noConfusion hcontra⟩
        · rw [if_neg hexit] at hw
          by_cases hacc : xi2 < lookupDensity m
              (ray.at (t - m.log (1 - xi) * m.invMaxDensity)) ray.d
              * m.densityMultiplier * m.invMaxDensity
          · rw [if_pos hacc] at hw
            have h1 := Option.some.inj hw
            injection h1 with hb h2
            injection h2 with hout hrest
            subst hb
            subst hout
            refine ⟨rfl, rfl, rfl, fun hcontra => Bool.noConfusion hcontra, fun _ => rfl⟩
          · rw [if_neg hacc] at hw
            have hlen2 : rest2.length ≤ n := by
              simp only [List.length_cons] at hlen
              omega
            exact ih rest2 hlen2 _ mRec b out rest hw

/-- Claim C6 as amended: after any Woodcock-mode `sampleDistance` call
the record's `pdfSuccess`, `pdfFailure` and `pdfSuccessRev` are exactly
the sentinel `1.0`, and `transmittance` is the sentinel `1.0` when no
collision is reported — but on a reported collision `transmittance` is
overwritten with `albedo / sigmaS` (line 546), so it is not 1.0 in
general. -/
theorem claim_C6_amended (m : Medium) (ray : Ray) (mRec0 : MediumSamplingRecord)
    (sampler : List ℚ) (b : Bool) (out : MediumSamplingRecord)
    (hw : m.method = EIntegrationMethod.EWoodcockTracking)
    (h : sampleDistance m ray mRec0 sampler = some (b, out)) :
    out.pdfSuccess = 1 ∧ out.pdfFailure = 1 ∧ out.pdfSuccessRev = 1 ∧
    (b = false → out.transmittance = Spectrum.const 1) ∧
    (b = true → out.transmittance = Spectrum.div (m.albedo out.p) out.sigmaS) := by
  rw [sampleDistance_wood_eq m ray mRec0 sampler hw] at h
  cases haabb : m.aabbIntersect ray with
  | none =>
    simp only [haabb] at h
    have h1 := Option.some.inj h
    injection h1 with hb hout
    subst hb
    subst hout
    exact ⟨rfl, rfl, rfl, fun _ => rfl, fun hcontra => Bool.noConfusion hcontra⟩
  | some pair =>
    obtain ⟨mint0, maxt0⟩ := pair
    simp only [haabb] at h
    cases hws : woodcockSample m ray (min maxt0 ray.maxt) (max mint0 ray.mint)
        (woodRecord0 mRec0) sampler with
    | none =>
      rw [hws] at h
      exact Option.noConfusion h
    | some tri =>
      obtain ⟨bb, out2, rest⟩ := tri
      rw [hws] at h
      have h1 := Option.some.inj h
      injection h1 with hb hout
      subst out2
      have hf := woodcockSample_fields m ray (min maxt0 ray.maxt) sampler.length sampler
        le_rfl (max mint0 ray.mint) (woodRecord0 mRec0) bb out rest hws
      have hp1 : out.pdfSuccess = 1 := by rw [hf.1]; rfl
      have hp2 : out.pdfFailure = 1 := by rw [hf.2.1]; rfl
      have hp3 : out.pdfSuccessRev = 1 := by rw [hf.2.2.1]; rfl
      have hbb : b = bb := by
        rw [← hb, hp1]
        norm_num
      refine ⟨hp1, hp2, hp3, ?_, ?_⟩
      · intro hbf
        rw [hbb] at hbf
        rw [hf.2.2.2.1 hbf]
        rfl
      · intro hbt
        rw [hbb] at hbt
        exact hf.2.2.2.2 hbt

/-- Woodcock medium with constant density 2 (majorant 2, so
`invMaxDensity = 1/2`) and a bound reported as `[0, 10]`. -/
def mC6 : Medium :=
  { constMedium EIntegrationMethod.EWoodcockTracking 2 with
    invMaxDensity := 1 / 2
    aabbIntersect := fun _ => some (0, 10) }

/-- Ray for the C6 counterexample. -/
def rayC6 : Ray := ⟨Vec3.zero, xdir, 0, 10⟩

/-- The record produced by the accepted collision of the C6 run. -/
def outC6 : MediumSamplingRecord :=
  { t := 1 / 4, p := ⟨1 / 4, 0, 0⟩, sigmaS := ⟨1, 1, 1⟩, sigmaA := ⟨1, 1, 1⟩,
    albedo := 1 / 2, orientation := Vec3.zero, transmittance := ⟨1 / 2, 1 / 2, 1 / 2⟩,
    pdfSuccess := 1, pdfSuccessRev := 1, pdfFailure := 1 }

theorem mC6_run :
    sampleDistance mC6 rayC6 emptyRecord [1 / 2, 0] = some (true, outC6) := by
  rw [sampleDistance_wood_eq mC6 rayC6 emptyRecord [1 / 2, 0] rfl]
  norm_num [woodcockSample, woodRecord0, emptyRecord, lookupDensity, Ray.at, Vec3.smul,
    Vec3.add_x, Vec3.add_y, Vec3.add_z, mC6, constMedium, rayC6, xdir, Vec3.zero,
    Spectrum.const, Spectrum.scale, Spectrum.sub, Spectrum.div, Spectrum.maxComponent,
    outC6, MediumSamplingRecord.mk.injEq, Vec3.mk.injEq, Spectrum.mk.injEq, Vec3.eq_iff]

/-- Counterexample to claim C6: a Woodcock `sampleDistance` call that
reports a collision leaves `transmittance` equal to `albedo / sigmaS`
(here `1/2` per channel), not the sentinel `1.0`. -/
theorem claim_C6_counterexample :
    mC6.method = EIntegrationMethod.EWoodcockTracking ∧
      sampleDistance mC6 rayC6 emptyRecord [1 / 2, 0] = some (true, outC6) ∧
      outC6.transmittance ≠ Spectrum.const 1 := by
  refine ⟨rfl, mC6_run, ?_⟩
  norm_num [outC6, Spectrum.const, Spectrum.mk.injEq]

/-- Witness for the amended claim C6 at the concrete collision run. -/
theorem claim_C6_amended_witness :
    outC6.pdfSuccess = 1 ∧ outC6.pdfFailure = 1 ∧ outC6.pdfSuccessRev = 1 ∧
      outC6.transmittance = Spectrum.div (mC6.albedo outC6.p) outC6.sigmaS := by
  have h := claim_C6_amended mC6 rayC6 emptyRecord [1 / 2, 0] true outC6 rfl mC6_run
  exact ⟨h.1, h.2.1, h.2.2.1, h.2.2.2.2 rfl⟩

/-- Claim C7 as amended: a ray that entirely misses the density bound
yields `integrateDensity = 0` and `getTransmittance = 1` under both
strategies and any sampler; a degenerate (near-zero) clipped segment
yields `integrateDensity = 0` and transmittance 1 on the deterministic
paths (Quadrature, or no sampler).  The stochastic transmittance path
has no degenerate-segment guard, so no such guarantee holds there (see
the counterexample). -/
theorem claim_C7_amended (m : Medium) (ray : Ray) (hexp : m.exp 0 = 1) :
    (m.aabbIntersect ray = none →
      integrateDensity m ray = ((0 : ℚ) : WithTop ℚ) ∧
      ∀ sampler, getTransmittance m ray sampler = some (Spectrum.const 1)) ∧
    (clippedSegment m ray = none →
      integrateDensity m ray = ((0 : ℚ) : WithTop ℚ) ∧
      ∀ sampler, (m.method = EIntegrationMethod.ESimpsonQuadrature ∨ sampler = none) →
        getTransmittance m ray sampler = some (Spectrum.const 1)) := by
  have hint : clippedSegment m ray = none →
      integrateDensity m ray = ((0 : ℚ) : WithTop ℚ) := by
    intro hseg
    unfold integrateDensity
    rw [hseg]
  have hexp0 : expNegD m ((0 : ℚ) : WithTop ℚ) = 1 := by
    simp [expNegD, hexp]
  constructor
  · intro hmiss
    have hseg : clippedSegment m ray = none := by
      unfold clippedSegment
      rw [hmiss]
    refine ⟨hint hseg, ?_⟩
    intro sampler
    unfold getTransmittance
    by_cases hcond : m.method = EIntegrationMethod.ESimpsonQuadrature ∨ sampler = none
    · rw [if_pos hcond, hint hseg, hexp0]
    · rw [if_neg hcond]
      cases sampler with
      | none => exact absurd (Or.inr rfl) hcond
      | some xs => rw [hmiss]
  · intro hseg
    refine ⟨hint hseg, ?_⟩
    intro sampler hcond
    unfold getTransmittance
    rw [if_pos hcond, hint hseg, hexp0]

/-- Woodcock medium whose bound misses every ray. -/
def mMiss : Medium :=
  { constMedium EIntegrationMethod.EWoodcockTracking 1 with
    aabbIntersect := fun _ => none }

/-- Witness for the amended claim C7: a full miss yields zero
integrated density and unit transmittance with and without a sampler. -/
theorem claim_C7_witness :
    integrateDensity mMiss ray02 = ((0 : ℚ) : WithTop ℚ) ∧
      getTransmittance mMiss ray02 (some [1 / 2]) = some (Spectrum.const 1) ∧
      getTransmittance mMiss ray02 none = some (Spectrum.const 1) := by
  have h := claim_C7_amended mMiss ray02 rfl
  exact ⟨(h.1 rfl).1, (h.1 rfl).2 (some [1 / 2]), (h.1 rfl).2 none⟩

/-- Woodcock medium whose bound reports `[0, 2000]`. -/
def mC7s : Medium :=
  { constMedium EIntegrationMethod.EWoodcockTracking 1 with
    aabbIntersect := fun _ => some (0, 2000) }

/-- Ray whose clipped segment `[1000, 1000 + 1/2000]` is shorter than
`1e-6` times its largest endpoint coordinate (the degenerate-segment
guard of the integrators applies to it). -/
def rayC7s : Ray := ⟨Vec3.zero, xdir, 1000, 1000 + 1 / 2000⟩

theorem mC7s_clip : clippedSegment mC7s rayC7s = none := by
  norm_num [clippedSegment, mC7s, constMedium, rayC7s, xdir, Vec3.zero, maxCompOf, Ray.at,
    Vec3.smul, Vec3.add_x, Vec3.add_y, Vec3.add_z, abs_zero, max_def,
    show |(1000 : ℚ)| = 1000 from abs_of_nonneg (by norm_num),
    show |(2000001 : ℚ) / 2000| = 2000001 / 2000 from abs_of_nonneg (by norm_num)]

theorem mC7s_run :
    getTransmittance mC7s rayC7s (some [1 / 10000, 1 / 2, 9 / 10])
      = some (Spectrum.const (1 / 2)) := by
  unfold getTransmittance
  rw [if_neg (by simp [mC7s, constMedium])]
  norm_num [ratioRun, lookupDensity, Ray.at, Vec3.smul, Vec3.add_x, Vec3.add_y, Vec3.add_z,
    mC7s, constMedium, rayC7s, xdir, Vec3.zero, Spectrum.const, Spectrum.mk.injEq]

/-- Counterexample to claim C7: a ray whose clipped segment is
degenerate (shorter than `1e-6 * maxComp`), yet the stochastic
transmittance estimate under StochasticTracking with a sampler is
`1/2`, not the guaranteed-survival value 1 (the Woodcock transmittance
path has no degenerate-segment guard). -/
theorem claim_C7_counterexample :
    mC7s.aabbIntersect rayC7s = some (0, 2000) ∧
      clippedSegment mC7s rayC7s = none ∧
      mC7s.method = EIntegrationMethod.EWoodcockTracking ∧
      getTransmittance mC7s rayC7s (some [1 / 10000, 1 / 2, 9 / 10])
        = some (Spectrum.const (1 / 2)) ∧
      Spectrum.const (1 / 2) ≠ Spectrum.const 1 := by
  refine ⟨rfl, mC7s_clip, rfl, mC7s_run, ?_⟩
  norm_num [Spectrum.const, Spectrum.mk.injEq]

theorem marchBody_char (m : Medium) (ray : Ray) (mint maxt : ℚ) (hlt : mint < maxt)
    (hd : ray.d ≠ Vec3.zero) (hnn : ∀ p, 0 ≤ lookupDensity m p ray.d)
    (hdm : 0 < m.densityMultiplier) (hss : 0 < m.stepSize) :
    marchBody m ray mint maxt
      = if m.stopAfterDensity < simpsonBody m ray mint maxt then (⊤ : WithTop ℚ)
        else ((simpsonBody m ray mint maxt : ℚ) : WithTop ℚ) := by
  have hL : (0 : ℚ) < maxt - mint := by linarith
  obtain ⟨hq2, hq1⟩ := quadNSteps_spec (maxt - mint) m.stepSize hL hss
  have hnpos : 0 < quadNSteps (maxt - mint) m.stepSize := by omega
  have hST : (0 : ℚ) < (maxt - mint) / ((quadNSteps (maxt - mint) m.stepSize : ℕ) : ℚ) := by
    apply div_pos hL
    exact_mod_cast hnpos
  have hincr : Vec3.smul ((maxt - mint) / ((quadNSteps (maxt - mint) m.stepSize : ℕ) : ℚ))
      ray.d ≠ Vec3.zero := Vec3.smul_ne_zero (ne_of_gt hST) hd
  have hsteps : quadNSteps (maxt - mint) m.stepSize - 1
      = (quadNSteps (maxt - mint) m.stepSize - 2) + 1 := by omega
  simp only [marchBody, simpsonBody]
  rw [hsteps]
  rw [marchLoop_char m ray.d _ _ hnn hincr _ _ _ _ (by norm_num) (by norm_num)]
  have hSTdm : (0 : ℚ) < (maxt - mint) / ((quadNSteps (maxt - mint) m.stepSize : ℕ) : ℚ)
      * m.densityMultiplier := mul_pos hST hdm
  have hkey : ∀ S : ℚ,
      (m.stopAfterDensity * 3
          / ((maxt - mint) / ((quadNSteps (maxt - mint) m.stepSize : ℕ) : ℚ)
            * m.densityMultiplier) < S
        ↔ m.stopAfterDensity < S * m.densityMultiplier
            * ((maxt - mint) / ((quadNSteps (maxt - mint) m.stepSize : ℕ) : ℚ)) * (1 / 3)) := by
    intro S
    rw [div_lt_iff₀ hSTdm]
    constructor <;> intro hx <;> nlinarith
  by_cases hc : m.stopAfterDensity * 3
      / ((maxt - mint) / ((quadNSteps (maxt - mint) m.stepSize : ℕ) : ℚ)
        * m.densityMultiplier)
      < marchSum m ray.d
          (Vec3.smul ((maxt - mint) / ((quadNSteps (maxt - mint) m.stepSize : ℕ) : ℚ)) ray.d)
          ((quadNSteps (maxt - mint) m.stepSize - 2) + 1)
          (ray.at mint + Vec3.smul ((maxt - mint)
            / ((quadNSteps (maxt - mint) m.stepSize : ℕ) : ℚ)) ray.d) 4
          (lookupDensity m (ray.at mint) ray.d + lookupDensity m (ray.at maxt) ray.d)
  · rw [if_pos hc, if_pos ((hkey _).mp hc)]
  · rw [if_neg hc, if_neg (fun hcon => hc ((hkey _).mpr hcon))]

/-- Claim C3 as amended: for a non-degenerate segment with positive
density multiplier, positive step size and non-negative density, the
early exit is sound and complete with respect to the integrator's own
completed Simpson estimate: `integrateDensity` returns `+∞` exactly
when the completed estimate exceeds the `-ln(machine epsilon)`
threshold, and otherwise returns the completed estimate itself.  (The
original claim's relation to the exact "true optical depth" integral
fails: see the counterexample.) -/
theorem claim_C3_amended (m : Medium) (ray : Ray) (mint maxt : ℚ)
    (hseg : clippedSegment m ray = some (mint, maxt)) (hlt : mint < maxt)
    (hd : ray.d ≠ Vec3.zero) (hnn : ∀ p, 0 ≤ lookupDensity m p ray.d)
    (hdm : 0 < m.densityMultiplier) (hss : 0 < m.stepSize) :
    (integrateDensity m ray = ⊤ ↔ m.stopAfterDensity < simpsonTotal m ray) ∧
    (¬ m.stopAfterDensity < simpsonTotal m ray →
      integrateDensity m ray = ((simpsonTotal m ray : ℚ) : WithTop ℚ)) := by
  have hIeq : integrateDensity m ray = marchBody m ray mint maxt := by
    unfold integrateDensity
    rw [hseg]
  have hSeq : simpsonTotal m ray = simpsonBody m ray mint maxt := by
    unfold simpsonTotal
    rw [hseg]
  rw [hIeq, hSeq, marchBody_char m ray mint maxt hlt hd hnn hdm hss]
  constructor
  · by_cases hc : m.stopAfterDensity < simpsonBody m ray mint maxt
    · simp [hc]
    · simp [hc]
  · intro hns
    rw [if_neg hns]

/-- Quadrature medium of constant density 10 (opaque enough to trigger
the early exit on the `[0, 2]` segment). -/
def mDense : Medium := constMedium EIntegrationMethod.ESimpsonQuadrature 10

theorem mDense_clip : clippedSegment mDense ray02 = some (0, 2) := by
  norm_num [clippedSegment, mDense, constMedium, ray02, xdir, Vec3.zero, maxCompOf, Ray.at,
    Vec3.smul, Vec3.add_x, Vec3.add_y, Vec3.add_z]

theorem mDense_simpson : simpsonTotal mDense ray02 = 20 := by
  unfold simpsonTotal
  rw [mDense_clip]
  norm_num [simpsonBody, quadNSteps, marchSum, lookupDensity, Ray.at, Vec3.smul, Vec3.add_x,
    Vec3.add_y, Vec3.add_z, mDense, constMedium, ray02, xdir, Vec3.zero,
    show (2 : ℤ).toNat = 2 from rfl]

/-- Witness for the amended claim C3: a constant density 10 over the
segment `[0, 2]` has completed Simpson estimate 20 above the 9.21
threshold, and `integrateDensity` indeed reports `+∞`. -/
theorem claim_C3_witness :
    mDense.stopAfterDensity < simpsonTotal mDense ray02 ∧
      integrateDensity mDense ray02 = ⊤ := by
  have h := claim_C3_amended mDense ray02 0 2 mDense_clip (by norm_num)
    (by norm_num [ray02, xdir, Vec3.zero, Vec3.eq_iff])
    (fun p => by norm_num [lookupDensity, mDense, constMedium])
    (by norm_num [mDense, constMedium]) (by norm_num [mDense, constMedium])
  have hlt : mDense.stopAfterDensity < simpsonTotal mDense ray02 := by
    rw [mDense_simpson]
    norm_num [mDense, constMedium]
  exact ⟨hlt, h.1.mpr hlt⟩

/-- Quadrature medium whose density field is a spike of height 10 on
the three planes `x = 0`, `x = 1`, `x = 2` (exactly the Simpson nodes
of the `[0, 2]` segment of `ray02`) and zero elsewhere. -/
def mC3 : Medium :=
  { constMedium EIntegrationMethod.ESimpsonQuadrature 0 with
    density := fun p => if p.x = 0 ∨ p.x = 1 ∨ p.x = 2 then 10 else 0 }

theorem mC3_clip : clippedSegment mC3 ray02 = some (0, 2) := by
  norm_num [clippedSegment, mC3, constMedium, ray02, xdir, Vec3.zero, maxCompOf, Ray.at,
    Vec3.smul, Vec3.add_x, Vec3.add_y, Vec3.add_z]

theorem mC3_integrate : integrateDensity mC3 ray02 = ⊤ := by
  unfold integrateDensity
  rw [mC3_clip]
  norm_num [marchBody, quadNSteps, marchLoop, lookupDensity, Ray.at, Vec3.smul, Vec3.add_x,
    Vec3.add_y, Vec3.add_z, mC3, constMedium, ray02, xdir, Vec3.zero,
    show (2 : ℤ).toNat = 2 from rfl]

/-- The extinction of the `mC3` field along `ray02`, as a real
function of the ray parameter: a spike of height 10 at the three
parameters 0, 1, 2 and zero elsewhere. -/
noncomputable def gC3 : ℝ → ℝ := fun t => if t = 0 ∨ t = 1 ∨ t = 2 then 10 else 0

theorem gC3_integral : (∫ t in (0 : ℝ)..(2 : ℝ), gC3 t) = 0 := by
  have hsub : {t : ℝ | ¬ gC3 t = 0} ⊆ ({0, 1, 2} : Set ℝ) := by
    intro t ht
    by_contra hmem
    apply ht
    unfold gC3
    rw [if_neg]
    intro hor
    apply hmem
    rcases hor with h | h | h
    · exact Set.mem_insert_iff.mpr (Or.inl h)
    · exact Set.mem_insert_iff.mpr (Or.inr (Set.mem_insert_iff.mpr (Or.inl h)))
    · exact Set.mem_insert_iff.mpr (Or.inr (Set.mem_insert_iff.mpr (Or.inr (Set.mem_singleton_iff.mpr h))))
  have hmeasure : MeasureTheory.volume ({0, 1, 2} : Set ℝ) = 0 :=
    (((Set.finite_singleton (2 : ℝ)).insert 1).insert 0).measure_zero _
  have hae : ∀ᵐ t ∂MeasureTheory.volume, gC3 t = 0 := by
    rw [MeasureTheory.ae_iff]
    exact MeasureTheory.measure_mono_null hsub hmeasure
  calc (∫ t in (0 : ℝ)..(2 : ℝ), gC3 t)
      = ∫ t in (0 : ℝ)..(2 : ℝ), (0 : ℝ) :=
        intervalIntegral.integral_congr_ae (hae.mono fun x hx _ => hx)
    _ = 0 := intervalIntegral.integral_zero

/-- Counterexample to claim C3: the early exit triggers on `mC3`
(`integrateDensity = +∞`), but the true optical depth of the segment —
the exact integral of the extinction along the ray, which is zero
because the field is non-zero only on a measure-zero set that happens
to contain every quadrature node — does not exceed the positive
threshold.  The conjunct quantified over ℚ certifies that the real
extinction profile `gC3` agrees with the embedded density lookup along
the ray. -/
theorem claim_C3_counterexample :
    integrateDensity mC3 ray02 = ⊤ ∧
      clippedSegment mC3 ray02 = some (0, 2) ∧
      (∀ q : ℚ, gC3 (q : ℝ) = ((lookupDensity mC3 (ray02.at q) ray02.d : ℚ) : ℝ)) ∧
      trueOpticalDepth mC3.densityMultiplier gC3 0 2 = 0 ∧
      (0 : ℝ) < ((mC3.stopAfterDensity : ℚ) : ℝ) := by
  refine ⟨mC3_integrate, mC3_clip, ?_, ?_, ?_⟩
  · intro q
    have hx : (ray02.at q).x = q := by
      norm_num [ray02, Ray.at, Vec3.smul, Vec3.add_x, xdir, Vec3.zero]
    have hlook : lookupDensity mC3 (ray02.at q) ray02.d
        = if q = 0 ∨ q = 1 ∨ q = 2 then 10 else 0 := by
      rw [show lookupDensity mC3 (ray02.at q) ray02.d = mC3.density (ray02.at q) from by
        simp [lookupDensity, mC3, constMedium]]
      rw [show mC3.density (ray02.at q)
          = if (ray02.at q).x = 0 ∨ (ray02.at q).x = 1 ∨ (ray02.at q).x = 2 then 10 else 0
        from rfl]
      rw [hx]
    rw [hlook]
    unfold gC3
    by_cases h : q = 0 ∨ q = 1 ∨ q = 2
    · have hr : (q : ℝ) = 0 ∨ (q : ℝ) = 1 ∨ (q : ℝ) = 2 := by
        rcases h with h | h | h <;> subst h <;> norm_num
      rw [if_pos hr, if_pos h]
      norm_num
    · have hr : ¬ ((q : ℝ) = 0 ∨ (q : ℝ) = 1 ∨ (q : ℝ) = 2) := by
        intro hc
        apply h
        rcases hc with hc | hc | hc
        · exact Or.inl (by exact_mod_cast hc)
        · exact Or.inr (Or.inl (by exact_mod_cast hc))
        · exact Or.inr (Or.inr (by exact_mod_cast hc))
      rw [if_neg hr, if_neg h]
      norm_num
  · unfold trueOpticalDepth
    rw [show ((0 : ℚ) : ℝ) = (0 : ℝ) by norm_num, show ((2 : ℚ) : ℝ) = (2 : ℝ) by norm_num,
      gC3_integral]
    norm_num
  · norm_num [mC3, constMedium]

/-- Claim C1 as amended: on a non-degenerate clipped segment with
non-negative density, positive multiplier and positive step size,
(i) whenever `invertDensityIntegral` reports success, the solution `t`
lies in `[mint, maxt]` and the reported integrated density matches the
target within `1e-6` absolute error, and (ii) whenever the target
strictly exceeds a finite `integrateDensity(ray)`, the inversion fails
and reports the full-segment integral, which equals the value
`integrateDensity` returns.  (The unconditional success guarantee for
`D ≤ integrateDensity(ray)` in the original claim is false: see the
counterexample, where the early exit makes `integrateDensity = +∞`
while the inversion fails for a finite target below it; the
Newton-Bisection iteration cap is a further failure source.) -/
theorem claim_C1_amended (m : Medium) (ray : Ray) (mint maxt D : ℚ)
    (hseg : clippedSegment m ray = some (mint, maxt)) (hlt : mint < maxt)
    (hd : ray.d ≠ Vec3.zero) (hnn : ∀ p, 0 ≤ lookupDensity m p ray.d)
    (hdm : 0 < m.densityMultiplier) (hss : 0 < m.stepSize) :
    ((invertDensityIntegral m ray D).success = true →
      mint ≤ (invertDensityIntegral m ray D).t ∧
      (invertDensityIntegral m ray D).t ≤ maxt ∧
      |(invertDensityIntegral m ray D).integratedDensity - D| < 1 / 1000000) ∧
    (integrateDensity m ray < ((D : ℚ) : WithTop ℚ) →
      (invertDensityIntegral m ray D).success = false ∧
      integrateDensity m ray
        = (((invertDensityIntegral m ray D).integratedDensity : ℚ) : WithTop ℚ)) := by
  have hL : (0 : ℚ) < maxt - mint := by linarith
  obtain ⟨hq2, hq1⟩ := quadNSteps_spec (maxt - mint) m.stepSize hL hss
  have hId : invertDensityIntegral m ray D = invertBody m ray mint maxt D := by
    unfold invertDensityIntegral
    rw [hseg]
  have hInt : integrateDensity m ray = marchBody m ray mint maxt := by
    unfold integrateDensity
    rw [hseg]
  rw [hId, hInt]
  simp only [invertBody]
  set K := (⌈(maxt - mint) / (2 * m.stepSize)⌉).toNat with hK
  have hKq : (0 : ℚ) < (K : ℚ) := by
    have : 0 < K := hq1
    exact_mod_cast this
  have hKne : ((K : ℚ)) ≠ 0 := ne_of_gt hKq
  set s2 := (maxt - mint) / ((K : ℚ)) with hs2
  have hs2pos : 0 < s2 := div_pos hL hKq
  constructor
  · intro hsucc
    have hb := invLoop_success m ray D mint s2 ((1 / 6) * s2 * m.densityMultiplier)
      (if ray.mint = mint then lookupDensity m (ray.at mint) ray.d * m.densityMultiplier else 0)
      (Vec3.smul (1 / 2) (Vec3.smul s2 ray.d)) (Vec3.smul s2 ray.d) hs2pos K 0 (ray.at mint)
      (lookupDensity m (ray.at mint) ray.d) 0 hsucc
    refine ⟨?_, ?_, hb.2.2⟩
    · have h1 := hb.1
      simpa using h1
    · have h2 := hb.2.1
      have hKL : mint + s2 * (K : ℚ) = maxt := by
        rw [hs2]
        field_simp
      simp only [Nat.cast_zero, zero_add] at h2
      linarith [h2, hKL.le, hKL.ge]
  · intro hlt2
    have hchar := marchBody_char m ray mint maxt hlt hd hnn hdm hss
    rw [hchar] at hlt2 ⊢
    by_cases hc : m.stopAfterDensity < simpsonBody m ray mint maxt
    · rw [if_pos hc] at hlt2
      exact absurd hlt2 not_top_lt
    · rw [if_neg hc] at hlt2 ⊢
      have hvD : simpsonBody m ray mint maxt < D := by exact_mod_cast hlt2
      have hcast : ((quadNSteps (maxt - mint) m.stepSize : ℕ) : ℚ) = 2 * (K : ℚ) := by
        rw [hq2]
        push_cast
        ring
      have hcastne : ((quadNSteps (maxt - mint) m.stepSize : ℕ) : ℚ) ≠ 0 := by
        rw [hcast]
        positivity
      have hs2h : s2 = 2 * ((maxt - mint)
          / ((quadNSteps (maxt - mint) m.stepSize : ℕ) : ℚ)) := by
        rw [hcast, hs2]
        field_simp
        ring
      have hHalf : Vec3.smul (1 / 2) (Vec3.smul s2 ray.d)
          = Vec3.smul ((maxt - mint)
              / ((quadNSteps (maxt - mint) m.stepSize : ℕ) : ℚ)) ray.d := by
        rw [hs2h]
        refine (Vec3.eq_iff _ _).mpr ⟨?_, ?_, ?_⟩ <;> simp only [Vec3.smul] <;> ring
      have hFull : Vec3.smul s2 ray.d
          = Vec3.smul ((maxt - mint)
              / ((quadNSteps (maxt - mint) m.stepSize : ℕ) : ℚ)) ray.d
            + Vec3.smul ((maxt - mint)
              / ((quadNSteps (maxt - mint) m.stepSize : ℕ) : ℚ)) ray.d := by
        rw [hs2h]
        refine (Vec3.eq_iff _ _).mpr ⟨?_, ?_, ?_⟩ <;>
          simp only [Vec3.smul, Vec3.add_x, Vec3.add_y, Vec3.add_z] <;> ring
      have hAeq : invSum m ray.d ((1 / 6) * s2 * m.densityMultiplier)
          (Vec3.smul (1 / 2) (Vec3.smul s2 ray.d)) (Vec3.smul s2 ray.d) K (ray.at mint) 0
          = simpsonBody m ray mint maxt := by
        have hmarch := invSum_eq_march m ray.d ((1 / 6) * s2 * m.densityMultiplier)
          (Vec3.smul ((maxt - mint)
            / ((quadNSteps (maxt - mint) m.stepSize : ℕ) : ℚ)) ray.d)
          (K - 1) (ray.at mint) 0
        have hKsplit : (K - 1) + 1 = K := by omega
        have e1 : 2 * (K - 1) + 2 = 2 * K := by omega
        have e2 : 2 * (K - 1) + 1 = 2 * K - 1 := by omega
        rw [hKsplit, e1, e2] at hmarch
        rw [hHalf, hFull, hmarch]
        have hPL : ray.at mint + Vec3.smul ((2 * K : ℕ) : ℚ)
            (Vec3.smul ((maxt - mint)
              / ((quadNSteps (maxt - mint) m.stepSize : ℕ) : ℚ)) ray.d)
            = ray.at maxt := by
          refine (Vec3.eq_iff _ _).mpr ⟨?_, ?_, ?_⟩ <;>
            simp only [Ray.at, Vec3.smul, Vec3.add_x, Vec3.add_y, Vec3.add_z] <;>
            (rw [hcast]; push_cast; field_simp; ring)
        rw [addN_eq, hPL]
        simp only [simpsonBody]
        have e3 : quadNSteps (maxt - mint) m.stepSize - 1 = 2 * K - 1 := by omega
        rw [e3]
        rw [marchSum_acc m ray.d _ (2 * K - 1) _ 4
          (lookupDensity m (ray.at mint) ray.d + lookupDensity m (ray.at maxt) ray.d)]
        rw [hs2h]
        ring
      have hM0 : 0 ≤ (1 / 6) * s2 * m.densityMultiplier := by positivity
      have hFS : Vec3.smul s2 ray.d ≠ Vec3.zero :=
        Vec3.smul_ne_zero (ne_of_gt hs2pos) hd
      have hnt := invLoop_no_trigger m ray D mint s2 ((1 / 6) * s2 * m.densityMultiplier)
        (if ray.mint = mint then lookupDensity m (ray.at mint) ray.d * m.densityMultiplier
          else 0)
        (Vec3.smul (1 / 2) (Vec3.smul s2 ray.d)) (Vec3.smul s2 ray.d) hnn hM0 hFS K 0
        (ray.at mint) 0 (by rw [hAeq]; exact hvD)
      rw [hnt]
      refine ⟨rfl, ?_⟩
      rw [show (invertFail (invSum m ray.d ((1 / 6) * s2 * m.densityMultiplier)
          (Vec3.smul (1 / 2) (Vec3.smul s2 ray.d)) (Vec3.smul s2 ray.d) K (ray.at mint) 0)
          (if ray.mint = mint then lookupDensity m (ray.at mint) ray.d * m.densityMultiplier
            else 0)).integratedDensity
        = invSum m ray.d ((1 / 6) * s2 * m.densityMultiplier)
            (Vec3.smul (1 / 2) (Vec3.smul s2 ray.d)) (Vec3.smul s2 ray.d) K (ray.at mint) 0
        from rfl]
      rw [hAeq]

theorem mDense_integrate : integrateDensity mDense ray02 = ⊤ := by
  unfold integrateDensity
  rw [mDense_clip]
  norm_num [marchBody, quadNSteps, marchLoop, lookupDensity, Ray.at, Vec3.smul, Vec3.add_x,
    Vec3.add_y, Vec3.add_z, mDense, constMedium, ray02, xdir, Vec3.zero,
    show (2 : ℤ).toNat = 2 from rfl]

theorem mDense_invert :
    invertDensityIntegral mDense ray02 100
      = { success := false, integratedDensity := 20, t := 0,
          densityAtMinT := 10, densityAtT := 0 } := by
  unfold invertDensityIntegral
  rw [mDense_clip]
  norm_num [invertBody, invLoop, invertFail, lookupDensity, Ray.at, Vec3.smul, Vec3.add_x,
    Vec3.add_y, Vec3.add_z, mDense, constMedium, ray02, xdir, Vec3.zero, Vec3.mk.injEq,
    Vec3.eq_iff, show (1 : ℤ).toNat = 1 from rfl, InvertResult.mk.injEq]

/-- Counterexample to claim C1: on the non-degenerate segment `[0, 2]`
of a constant-density-10 medium, the early exit makes
`integrateDensity = +∞`, so the target `D = 100` satisfies
`D ≤ integrateDensity(ray)`; yet `invertDensityIntegral` returns
`false` (its marching total is only 20 < 100), so the round-trip
success guarantee fails as stated. -/
theorem claim_C1_counterexample :
    clippedSegment mDense ray02 = some (0, 2) ∧
      (0 : ℚ) < 2 - 0 ∧
      ((100 : ℚ) : WithTop ℚ) ≤ integrateDensity mDense ray02 ∧
      (invertDensityIntegral mDense ray02 100).success = false := by
  refine ⟨mDense_clip, by norm_num, ?_, ?_⟩
  · rw [mDense_integrate]
    exact le_top
  · rw [mDense_invert]

theorem mQuad_integrate : integrateDensity mQuad ray02 = ((2 : ℚ) : WithTop ℚ) := by
  unfold integrateDensity
  rw [mQuad_clip]
  norm_num [marchBody, quadNSteps, marchLoop, lookupDensity, Ray.at, Vec3.smul, Vec3.add_x,
    Vec3.add_y, Vec3.add_z, mQuad, constMedium, ray02, xdir, Vec3.zero, Vec3.mk.injEq,
    show (2 : ℤ).toNat = 2 from rfl, ← WithTop.coe_mul]

/-- Witness for the amended claim C1 at a constant-density-1 medium:
a target above the finite integral makes the inversion fail with the
full-segment integral, and a target `1/2` below it is inverted with
`t` in range and matched integral. -/
theorem claim_C1_witness :
    ((invertDensityIntegral mQuad ray02 100).success = false ∧
      integrateDensity mQuad ray02
        = (((invertDensityIntegral mQuad ray02 100).integratedDensity : ℚ) : WithTop ℚ)) ∧
    ((0 : ℚ) ≤ (invertDensityIntegral mQuad ray02 (1 / 2)).t ∧
      (invertDensityIntegral mQuad ray02 (1 / 2)).t ≤ 2 ∧
      |(invertDensityIntegral mQuad ray02 (1 / 2)).integratedDensity - 1 / 2|
        < 1 / 1000000) := by
  have h1 := claim_C1_amended mQuad ray02 0 2 100 mQuad_clip (by norm_num)
    (by norm_num [ray02, xdir, Vec3.zero, Vec3.eq_iff])
    (fun p => by norm_num [lookupDensity, mQuad, constMedium])
    (by norm_num [mQuad, constMedium]) (by norm_num [mQuad, constMedium])
  have h2 := claim_C1_amended mQuad ray02 0 2 (1 / 2) mQuad_clip (by norm_num)
    (by norm_num [ray02, xdir, Vec3.zero, Vec3.eq_iff])
    (fun p => by norm_num [lookupDensity, mQuad, constMedium])
    (by norm_num [mQuad, constMedium]) (by norm_num [mQuad, constMedium])
  refine ⟨h1.2 ?_, h2.1 ?_⟩
  · rw [mQuad_integrate]
    exact WithTop.coe_lt_coe.mpr (by norm_num)
  · rw [mQuad_invert_half]

end HetVol
